import Mathlib

/-!
# Verification of the Queens puzzle engine (src/game.js)

Shallow embedding of the core engine of the QueensGame repository:
region generation (RegionGenerator), uniqueness-checked solution search
(SolutionGenerator), the logical deduction solver (LogicalSolver), the
puzzle acceptance loop (PuzzleGenerator) and the two technique-cost
tables.  JavaScript numbers holding board marks and region ids are
modelled as Int (board cells only ever hold 0, 1, -1; region ids are
arbitrary integers, -1 meaning unassigned).  Ambient Math.random and the
wall clock are modelled as explicit oracle streams Nat -> Nat; a
JavaScript do/while rejection loop that need not terminate receives an
explicit fuel parameter and returns none when the fuel runs out.
Mutation is modelled by state passing; early `return` inside loops is
modelled by recursion with an early-exit constructor.
-/

namespace QueensGame

/-- Step type tags (the JS string constants used for `step.type`). -/
def placeQueenType : String := "PLACE_QUEEN"

def placeQueenRowType : String := "PLACE_QUEEN_ROW"

def placeQueenColType : String := "PLACE_QUEEN_COL"

def placeQueenRegionType : String := "PLACE_QUEEN_REGION"

def pointingEliminationType : String := "POINTING_ELIMINATION"

def nishioEliminationType : String := "NISHIO_ELIMINATION"

def eliminateType : String := "ELIMINATE"

/-- Reason strings pushed by the solver (apostrophes elided). -/
def reasonOnlyRow : String := "Only valid cell in this row"

def reasonOnlyCol : String := "Only valid cell in this column"

def reasonOnlyRegion : String := "Only valid cell in this region"

def reasonPointingRow : String := "Regions options confined to this row"

def reasonPointingCol : String := "Regions options confined to this column"

def reasonNishioImmediate : String := "Assumption immediately conflicts"

def reasonNishioDeep : String := "Assuming a queen here breaks the puzzle"

/-- A recorded deduction step: `this.steps.push({ type, row, col, reason })`.
`reason` is an Option because some call sites omit the argument
(JS `undefined`). -/
structure Step where
  type : String
  row : Nat
  col : Nat
  reason : Option String
deriving Repr, DecidableEq

/-- Result of a mutating solver operation:
`{ contradiction: true }`, `{ changed: true }` or `{ changed: false }`. -/
inductive OpRes where
  | contra : OpRes
  | ok : Bool → OpRes
deriving Repr, DecidableEq

/-- The LogicalSolver object state: `size`, `regions`, `targetSolution`
(null when absent), the working board (0 = Unknown, 1 = Queen,
-1 = Crossed out) and the ordered step list. -/
structure Solver where
  size : Nat
  regions : Nat → Nat → Int
  target : Option (Nat → Nat → Int)
  board : Nat → Nat → Int
  steps : List Step

/-- Pointwise update of one board cell (`this.board[r][c] = v`). -/
def bupd (b : Nat → Nat → Int) (r c : Nat) (v : Int) : Nat → Nat → Int :=
  fun x y => if x = r ∧ y = c then v else b x y

/-- `new LogicalSolver(size, regions, targetSolution)`: all-Unknown board,
empty step list. -/
def Solver.init (size : Nat) (regions : Nat → Nat → Int)
    (target : Option (Nat → Nat → Int)) : Solver :=
  ⟨size, regions, target, fun _ _ => 0, []⟩

/-- `clone()`: same size/regions/target, board copied, fresh step list. -/
def Solver.clone (s : Solver) : Solver :=
  { s with steps := [] }

/-- `isValidCell(row, col)` (for Nat coordinates the lower bound is
implicit in the Int neighbour computation below). -/
def Solver.isValidCell (s : Solver) (row col : Nat) : Bool :=
  decide (row < s.size) && decide (col < s.size)

/-- `isCandidate(row, col)`: the cell is Unknown. -/
def Solver.isCandidate (s : Solver) (row col : Nat) : Bool :=
  decide (s.board row col = 0)

/-- `setImpossible(row, col, reason, type = 'ELIMINATE')`.
A queen cell yields a contradiction; an already-crossed-out cell is a
no-op; otherwise the cell is crossed out and a step is pushed only when
a reason was supplied (`if (reason)`), mirroring that the cascading
eliminations (which pass no reason) leave the step list untouched. -/
def Solver.setImpossible (s : Solver) (row col : Nat) (reason : Option String)
    (type : String) : Solver × OpRes :=
  let cell := s.board row col
  if cell = 1 then (s, .contra)
  else if cell = -1 then (s, .ok false)
  else
    let s1 : Solver := { s with board := bupd s.board row col (-1) }
    match reason with
    | some re => ({ s1 with steps := s1.steps ++ [⟨type, row, col, some re⟩] }, .ok true)
    | none => (s1, .ok true)

/-- The cells of row `row` other than column `col`, in loop order. -/
def rowMates (size row col : Nat) : List (Nat × Nat) :=
  ((List.range size).filter (fun c => c ≠ col)).map (fun c => (row, c))

/-- The cells of column `col` other than row `row`, in loop order. -/
def colMates (size row col : Nat) : List (Nat × Nat) :=
  ((List.range size).filter (fun r => r ≠ row)).map (fun r => (r, col))

/-- The in-bounds king neighbours of `(row, col)`, in the JS double-loop
order (dr, dc from -1 to 1, skipping (0,0), bounds-checked). -/
def kingNeighbors (size row col : Nat) : List (Nat × Nat) :=
  ([-1, 0, 1] : List Int).flatMap (fun dr =>
    ([-1, 0, 1] : List Int).filterMap (fun dc =>
      if dr = 0 ∧ dc = 0 then none
      else
        let nr : Int := (row : Int) + dr
        let nc : Int := (col : Int) + dc
        if 0 ≤ nr ∧ nr < (size : Int) ∧ 0 ≤ nc ∧ nc < (size : Int) then
          some (nr.toNat, nc.toNat)
        else none))

/-- The cells sharing `(row, col)`-s region, excluding `(row, col)`
itself, in row-major order. -/
def regionMates (s : Solver) (row col : Nat) : List (Nat × Nat) :=
  let rid := s.regions row col
  (List.range s.size).flatMap (fun r =>
    (List.range s.size).filterMap (fun c =>
      if r = row ∧ c = col then none
      else if s.regions r c ≠ rid then none
      else some (r, c)))

/-- The `mark` closure of `crossOutFromQueen` folded over a cell list:
cross out each cell (no reason), abort on the first contradiction,
accumulate the changed flag. -/
def Solver.markCells (s : Solver) (cells : List (Nat × Nat)) (changed : Bool) :
    Solver × OpRes :=
  match cells with
  | [] => (s, .ok changed)
  | p :: rest =>
    match s.setImpossible p.1 p.2 none eliminateType with
    | (s1, .contra) => (s1, .contra)
    | (s1, .ok ch) => s1.markCells rest (changed || ch)

/-- `crossOutFromQueen(row, col)`: cross out the row mates, column mates,
king neighbours and region mates of a queen, in that order, stopping at
the first contradiction. -/
def Solver.crossOutFromQueen (s : Solver) (row col : Nat) : Solver × OpRes :=
  s.markCells
    (rowMates s.size row col ++ colMates s.size row col ++
      kingNeighbors s.size row col ++ regionMates s row col) false

/-- `setQueen(row, col, reason, type = 'PLACE_QUEEN')`.  Re-placing an
existing queen is a no-op; placing on a crossed-out cell is a
contradiction; otherwise the queen is placed, a step is pushed, and the
cascading eliminations run (their contradiction aborts the call). -/
def Solver.setQueen (s : Solver) (row col : Nat) (reason : Option String)
    (type : String) : Solver × OpRes :=
  let cell := s.board row col
  if cell = 1 then (s, .ok false)
  else if cell = -1 then (s, .contra)
  else
    let s1 : Solver :=
      { s with board := bupd s.board row col 1,
               steps := s.steps ++ [⟨type, row, col, reason⟩] }
    match s1.crossOutFromQueen row col with
    | (s2, .contra) => (s2, .contra)
    | (s2, .ok _) => (s2, .ok true)

/-- The difficulty scorer's weight table
(`getDifficultyScore`: `weights[step.type] || 0`). -/
def scorerWeight (t : String) : Nat :=
  if t = placeQueenRowType then 1
  else if t = placeQueenColType then 1
  else if t = placeQueenRegionType then 1
  else if t = pointingEliminationType then 2
  else if t = nishioEliminationType then 3
  else 0

/-- `getDifficultyScore()`: sum of the weights over the recorded steps. -/
def Solver.getDifficultyScore (s : Solver) : Nat :=
  (s.steps.map (fun st => scorerWeight st.type)).sum

/-- `usedAdvancedStep()`: some recorded step is a Nishio elimination. -/
def Solver.usedAdvancedStep (s : Solver) : Bool :=
  s.steps.any (fun st => st.type == nishioEliminationType)

/-- Row-major list of all cells of an n-by-n grid. -/
def cellList (n : Nat) : List (Nat × Nat) :=
  (List.range n).flatMap (fun r => (List.range n).map (fun c => (r, c)))

/-- `rowInfo(row)`: number of queens and the Unknown cells of a row. -/
def Solver.rowInfo (s : Solver) (row : Nat) : Nat × List (Nat × Nat) :=
  (List.range s.size).foldl
    (fun acc c =>
      let cell := s.board row c
      if cell = 1 then (acc.1 + 1, acc.2)
      else if cell = 0 then (acc.1, acc.2 ++ [(row, c)])
      else acc)
    (0, [])

/-- `colInfo(col)`: number of queens and the Unknown cells of a column. -/
def Solver.colInfo (s : Solver) (col : Nat) : Nat × List (Nat × Nat) :=
  (List.range s.size).foldl
    (fun acc r =>
      let cell := s.board r col
      if cell = 1 then (acc.1 + 1, acc.2)
      else if cell = 0 then (acc.1, acc.2 ++ [(r, col)])
      else acc)
    (0, [])

/-- `regionInfo(regionId)`: number of queens and the Unknown cells of a
region (cells scanned in row-major order). -/
def Solver.regionInfo (s : Solver) (rid : Nat) : Nat × List (Nat × Nat) :=
  (cellList s.size).foldl
    (fun acc p =>
      if s.regions p.1 p.2 ≠ (rid : Int) then acc
      else
        let cell := s.board p.1 p.2
        if cell = 1 then (acc.1 + 1, acc.2)
        else if cell = 0 then (acc.1, acc.2 ++ [p])
        else acc)
    (0, [])

/-- One family of `placeHiddenSingles` loops (rows, columns or regions,
selected by `infoF`): more than one queen or an empty unit is a
contradiction, a unit with zero queens and a single candidate forces a
queen there. -/
def Solver.hiddenSinglesPass (s : Solver) (idxs : List Nat)
    (infoF : Solver → Nat → Nat × List (Nat × Nat))
    (reason : String) (ty : String) (changed : Bool) : Solver × OpRes :=
  match idxs with
  | [] => (s, .ok changed)
  | i :: rest =>
    let info := infoF s i
    if info.1 > 1 then (s, .contra)
    else if info.1 = 0 ∧ info.2.length = 0 then (s, .contra)
    else if info.1 = 0 ∧ info.2.length = 1 then
      let p := info.2.headD (0, 0)
      match s.setQueen p.1 p.2 (some reason) ty with
      | (s1, .contra) => (s1, .contra)
      | (s1, .ok _) => s1.hiddenSinglesPass rest infoF reason ty true
    else s.hiddenSinglesPass rest infoF reason ty changed

/-- `placeHiddenSingles()`: rows, then columns, then regions
(region ids range over 0..size-1). -/
def Solver.placeHiddenSingles (s : Solver) : Solver × OpRes :=
  match s.hiddenSinglesPass (List.range s.size) Solver.rowInfo
      reasonOnlyRow placeQueenRowType false with
  | (s1, .contra) => (s1, .contra)
  | (s1, .ok ch1) =>
    match s1.hiddenSinglesPass (List.range s1.size) Solver.colInfo
        reasonOnlyCol placeQueenColType ch1 with
    | (s2, .contra) => (s2, .contra)
    | (s2, .ok ch2) =>
      s2.hiddenSinglesPass (List.range s2.size) Solver.regionInfo
        reasonOnlyRegion placeQueenRegionType ch2

/-- The row-branch (or column-branch) inner loop of
`applyPointingEliminations`: cross out the candidates of a line that lie
outside region `rid`.  `pick` selects the scanned cell for index i. -/
def Solver.pointingLine (s : Solver) (rid : Nat) (idxs : List Nat)
    (pick : Nat → Nat × Nat) (reason : String) (changed : Bool) :
    Solver × OpRes :=
  match idxs with
  | [] => (s, .ok changed)
  | i :: rest =>
    let p := pick i
    if s.regions p.1 p.2 = (rid : Int) then
      s.pointingLine rid rest pick reason changed
    else if !(s.isCandidate p.1 p.2) then
      s.pointingLine rid rest pick reason changed
    else
      match s.setImpossible p.1 p.2 (some reason) pointingEliminationType with
      | (s1, .contra) => (s1, .contra)
      | (s1, .ok ch) => s1.pointingLine rid rest pick reason (changed || ch)

/-- The body of `applyPointingEliminations` for one region id. -/
def Solver.pointingForRegion (s : Solver) (rid : Nat) (changed : Bool) :
    Solver × OpRes :=
  let regionCandidates := (cellList s.size).filter
    (fun p => s.regions p.1 p.2 = (rid : Int) && s.board p.1 p.2 = 0)
  if regionCandidates.length = 0 then (s, .ok changed)
  else
    let rows := (regionCandidates.map (fun p => p.1)).dedup
    let cols := (regionCandidates.map (fun p => p.2)).dedup
    let afterRow :=
      if rows.length = 1 then
        let row := (regionCandidates.headD (0, 0)).1
        s.pointingLine rid (List.range s.size) (fun c => (row, c))
          reasonPointingRow changed
      else (s, .ok changed)
    match afterRow with
    | (s1, .contra) => (s1, .contra)
    | (s1, .ok ch1) =>
      if cols.length = 1 then
        let col := (regionCandidates.headD (0, 0)).2
        s1.pointingLine rid (List.range s1.size) (fun r => (r, col))
          reasonPointingCol ch1
      else (s1, .ok ch1)

/-- `applyPointingEliminations()`: the loop over region ids. -/
def Solver.pointingPass (s : Solver) (rids : List Nat) (changed : Bool) :
    Solver × OpRes :=
  match rids with
  | [] => (s, .ok changed)
  | rid :: rest =>
    match s.pointingForRegion rid changed with
    | (s1, .contra) => (s1, .contra)
    | (s1, .ok ch) => s1.pointingPass rest ch

/-- `applyPointingEliminations()`. -/
def Solver.applyPointingEliminations (s : Solver) : Solver × OpRes :=
  s.pointingPass (List.range s.size) false

/-- The first loop of `applyCoreEliminations`: re-run the cascading
eliminations from every queen currently on the board. -/
def Solver.crossQueensPass (s : Solver) (cells : List (Nat × Nat))
    (changed : Bool) : Solver × OpRes :=
  match cells with
  | [] => (s, .ok changed)
  | p :: rest =>
    if s.board p.1 p.2 = 1 then
      match s.crossOutFromQueen p.1 p.2 with
      | (s1, .contra) => (s1, .contra)
      | (s1, .ok ch) => s1.crossQueensPass rest (changed || ch)
    else s.crossQueensPass rest changed

/-- `applyCoreEliminations()`: queen enforcement, hidden singles,
pointing eliminations; any contradiction aborts. -/
def Solver.applyCoreEliminations (s : Solver) : Solver × OpRes :=
  match s.crossQueensPass (cellList s.size) false with
  | (s1, .contra) => (s1, .contra)
  | (s1, .ok ch1) =>
    match s1.placeHiddenSingles with
    | (s2, .contra) => (s2, .contra)
    | (s2, .ok ch2) =>
      match s2.applyPointingEliminations with
      | (s3, .contra) => (s3, .contra)
      | (s3, .ok ch3) => (s3, .ok (ch1 || ch2 || ch3))

/-- `isConsistent()`: no unit has two queens or is wiped out. -/
def Solver.isConsistent (s : Solver) : Bool :=
  ((List.range s.size).all (fun r =>
    let i := s.rowInfo r
    !(decide (i.1 > 1)) && !(decide (i.1 = 0) && decide (i.2.length = 0)))) &&
  ((List.range s.size).all (fun c =>
    let i := s.colInfo c
    !(decide (i.1 > 1)) && !(decide (i.1 = 0) && decide (i.2.length = 0)))) &&
  ((List.range s.size).all (fun rid =>
    let i := s.regionInfo rid
    !(decide (i.1 > 1)) && !(decide (i.1 = 0) && decide (i.2.length = 0))))

/-- `isSolved()`: exactly one queen per row, column and region. -/
def Solver.isSolved (s : Solver) : Bool :=
  ((List.range s.size).all (fun r => (s.rowInfo r).1 == 1)) &&
  ((List.range s.size).all (fun c => (s.colInfo c).1 == 1)) &&
  ((List.range s.size).all (fun rid => (s.regionInfo rid).1 == 1))

/-- `matchesTargetSolution()`: with no target, vacuously true; otherwise
the queen cells must be exactly the target's 1-cells. -/
def Solver.matchesTargetSolution (s : Solver) : Bool :=
  match s.target with
  | none => true
  | some tgt =>
    (cellList s.size).all (fun p =>
      let expected : Int := if tgt p.1 p.2 = 1 then 1 else -1
      let cell := s.board p.1 p.2
      !(decide (expected = 1) && !(decide (cell = 1))) &&
      !(!(decide (expected = 1)) && decide (cell = 1)))

/-- JS truthiness of the `stepLimit` option (null or 0 are falsy). -/
def jsTruthy (o : Option Nat) : Bool :=
  match o with
  | none => false
  | some k => decide (k ≠ 0)

/-- The numeric value of the option (only used under `jsTruthy`). -/
def jsVal (o : Option Nat) : Nat := o.getD 0

/-- JS `stepLimit || d`. -/
def jsOr (o : Option Nat) (d : Nat) : Nat :=
  match o with
  | none => d
  | some k => if k = 0 then d else k

/-- The iteration cap of `solveToFixedPoint`:
`stepLimit ? Math.max(400, stepLimit * 2) : 800`. -/
def capOf (sl : Option Nat) : Nat :=
  if jsTruthy sl then max 400 (jsVal sl * 2) else 800

/-- Number of Unknown cells on the board.  This quantity never increases
under any solver operation and strictly decreases when the Nishio
hypothesis test places its trial queen; it bounds the nesting depth of
the solver's hypothesis recursion. -/
def unknownCount (s : Solver) : Nat :=
  ((cellList s.size).filter (fun p => s.board p.1 p.2 == 0)).length

/-- The double loop over all cells of `attemptNishioElimination`,
iterating the row-major cell list of the board (the source iterates
`r`, `c` over `0..this.size`; `size` is never mutated, so the
iteration domain is fixed at entry).  For each candidate cell, clone
the board, tentatively place a queen there, run the nested fixed-point
propagation `nested` on the trial, and on contradiction (or
inconsistency) eliminate the cell on the real board as a
NISHIO_ELIMINATION, honouring the step-limit early returns. -/
def nishioLoopF (nested : Solver → Solver × Bool) (stepLimit : Option Nat)
    (s : Solver) (changed : Bool) : List (Nat × Nat) → Solver × OpRes
  | [] => (s, .ok changed)
  | (r, c) :: rest =>
    if s.isCandidate r c then
      match s.clone.setQueen r c none placeQueenType with
      | (_, .contra) =>
        match s.setImpossible r c (some reasonNishioImmediate)
            nishioEliminationType with
        | (s1, .contra) => (s1, .contra)
        | (s1, .ok ch) =>
          let changed1 := changed || ch
          if jsTruthy stepLimit && decide (jsVal stepLimit ≤ s1.steps.length) then
            (s1, .ok changed1)
          else nishioLoopF nested stepLimit s1 changed1 rest
      | (t1, .ok _) =>
        match nested t1 with
        | (t2, res2) =>
          if res2 || !t2.isConsistent then
            match s.setImpossible r c (some reasonNishioDeep)
                nishioEliminationType with
            | (s1, .contra) => (s1, .contra)
            | (s1, .ok ch) =>
              let changed1 := changed || ch
              if jsTruthy stepLimit && decide (jsVal stepLimit ≤ s1.steps.length) then
                (s1, .ok changed1)
              else nishioLoopF nested stepLimit s1 changed1 rest
          else nishioLoopF nested stepLimit s changed rest
    else nishioLoopF nested stepLimit s changed rest

/-- The `while (guard < cap)` loop of `solveToFixedPoint({allowNishio,
stepLimit})`, with `rem` the number of loop iterations still allowed
(`rem = cap - guard`; the loop exits with a contradiction result when
it reaches zero).  `att` is `attemptNishioElimination` at the current
hypothesis-nesting depth. -/
def solveFixAux (att : Solver → Solver × OpRes) (allowNishio : Bool)
    (stepLimit : Option Nat) : Nat → Solver → Solver × Bool
  | 0, s => (s, true)
  | rem + 1, s =>
    match s.applyCoreEliminations with
    | (s1, .contra) => (s1, true)
    | (s1, .ok elimChanged) =>
      if jsTruthy stepLimit && decide (jsVal stepLimit ≤ s1.steps.length) then
        (s1, false)
      else if s1.isSolved then (s1, false)
      else if elimChanged then solveFixAux att allowNishio stepLimit rem s1
      else if allowNishio then
        match att s1 with
        | (s2, .contra) => (s2, true)
        | (s2, .ok nishioChanged) =>
          if jsTruthy stepLimit && decide (jsVal stepLimit ≤ s2.steps.length) then
            (s2, false)
          else if nishioChanged then
            solveFixAux att allowNishio stepLimit rem s2
          else (s2, false)
      else (s1, false)

/-- `attemptNishioElimination(stepLimit)` at hypothesis-nesting depth
`nfuel`: the nested propagation runs `solveToFixedPoint({allowNishio:
true, stepLimit: stepLimit || 200})` at depth `nfuel - 1`.  The source
recursion carries no depth parameter; the depth-0 fallback is
unreachable whenever `nfuel` exceeds the number of Unknown cells, since
every nesting level places a trial queen on an Unknown cell of a cloned
board (theorem `solveFix_depth_irrelevant` below makes this precise and
is the termination argument for the source's recursion). -/
def nishioDepth (stepLimit : Option Nat) : Nat → Solver → Solver × OpRes
  | 0, s => (s, .contra)
  | d + 1, s =>
    nishioLoopF
      (fun t1 =>
        let sl1 := some (jsOr stepLimit 200)
        solveFixAux (nishioDepth sl1 d) true sl1 (capOf sl1) t1)
      stepLimit s false (cellList s.size)

/-- `solveToFixedPoint({allowNishio = true, stepLimit = null})`: run the
loop with the computed cap; `unknownCount s + 1` is a sufficient
nesting-depth bound for the hypothesis recursion. -/
def Solver.solveToFixedPoint (s : Solver) (allowNishio : Bool)
    (stepLimit : Option Nat) : Solver × Bool :=
  solveFixAux (nishioDepth stepLimit (unknownCount s + 1)) allowNishio
    stepLimit (capOf stepLimit) s

/-- The record returned by `solveLogically`. -/
structure LogicResult where
  solved : Bool
  difficultyScore : Nat
  usedAdvanced : Bool
  steps : List Step
deriving Repr

/-- `solveLogically({allowNishio = true, stepLimit = null})`: fixed-point
solve, then report `solved: true` only when there was no contradiction,
the board is solved, and the board matches the target solution. -/
def Solver.solveLogically (s : Solver) (allowNishio : Bool)
    (stepLimit : Option Nat) : Solver × LogicResult :=
  match s.solveToFixedPoint allowNishio stepLimit with
  | (s1, contra) =>
    if contra then
      (s1, ⟨false, s1.getDifficultyScore, s1.usedAdvancedStep, s1.steps⟩)
    else if !s1.isSolved then
      (s1, ⟨false, s1.getDifficultyScore, s1.usedAdvancedStep, s1.steps⟩)
    else if !s1.matchesTargetSolution then
      (s1, ⟨false, s1.getDifficultyScore, s1.usedAdvancedStep, s1.steps⟩)
    else (s1, ⟨true, s1.getDifficultyScore, s1.usedAdvancedStep, s1.steps⟩)

/-- Swap two positions of a list (out-of-range indices leave it
unchanged, as JS array destructuring would never be out of range here). -/
def listSwap (l : List Nat) (i j : Nat) : List Nat :=
  match l.get? i, l.get? j with
  | some a, some b => (l.set i b).set j a
  | _, _ => l

/-- The Fisher-Yates loop of `shuffleArray` (i from length-1 down to 1);
`Math.floor(Math.random() * (i + 1))` is modelled as `rng idx % (i + 1)`
with `idx` the position in the random stream. -/
def shuffleAux (rng : Nat → Nat) (arr : List Nat) (idx : Nat) :
    Nat → List Nat × Nat
  | 0 => (arr, idx)
  | i + 1 =>
    let j := rng idx % (i + 2)
    shuffleAux rng (listSwap arr (i + 1) j) (idx + 1) i

/-- `shuffleArray(array)`: returns the shuffled list and the next unused
random-stream position. -/
def shuffleArray (rng : Nat → Nat) (idx : Nat) (arr : List Nat) :
    List Nat × Nat :=
  shuffleAux rng arr idx (arr.length - 1)

/-- JS `Set.add` on a set modelled as a duplicate-free list. -/
def jsSetAdd {α : Type} [DecidableEq α] (l : List α) (a : α) : List α :=
  if a ∈ l then l else l ++ [a]

/-- The SolutionGenerator object state: board (`solution`, 0/1 entries),
solution counter (`maxSolutions = 2` is inlined as the constant 2),
`firstSolution` snapshot, the `usedCols`/`usedRegions` sets, and the
random stream with its current position. -/
structure SGState where
  size : Nat
  regions : Nat → Nat → Int
  solution : Nat → Nat → Int
  solutionsFound : Nat
  firstSolution : Option (Nat → Nat → Int)
  usedCols : List Nat
  usedRegions : List Int
  rng : Nat → Nat
  idx : Nat

/-- `new SolutionGenerator(size, regions)`. -/
def SGState.init (size : Nat) (regions : Nat → Nat → Int) (rng : Nat → Nat)
    (idx : Nat) : SGState :=
  ⟨size, regions, fun _ _ => 0, 0, none, [], [], rng, idx⟩

/-- `isValidPlacement(row, col)`: column unused, region unused, and no
already-placed queen among the 8 king neighbours. -/
def SGState.isValidPlacement (st : SGState) (row col : Nat) : Bool :=
  if col ∈ st.usedCols then false
  else if st.regions row col ∈ st.usedRegions then false
  else
    !(([-1, 0, 1] : List Int).any (fun dr =>
      ([-1, 0, 1] : List Int).any (fun dc =>
        if dr = 0 ∧ dc = 0 then false
        else
          let nr := (row : Int) + dr
          let nc := (col : Int) + dc
          if 0 ≤ nr ∧ nr < (st.size : Int) ∧ 0 ≤ nc ∧ nc < (st.size : Int) then
            decide (st.solution nr.toNat nc.toNat = 1)
          else false)))

/-- The `for (const col of cols)` loop of `solve(row)`: place the queen,
run `next` (the recursive `solve(row + 1)`), backtrack, early-exit once
two solutions have been counted. -/
def sgTryCols (next : SGState → SGState) (st : SGState) (row : Nat) :
    List Nat → SGState
  | [] => st
  | col :: rest =>
    if st.isValidPlacement row col then
      let st1 := { st with
        solution := bupd st.solution row col 1,
        usedCols := jsSetAdd st.usedCols col,
        usedRegions := jsSetAdd st.usedRegions (st.regions row col) }
      let st2 := next st1
      let st3 := { st2 with
        solution := bupd st2.solution row col 0,
        usedCols := st2.usedCols.erase col,
        usedRegions := st2.usedRegions.erase (st2.regions row col) }
      if 2 ≤ st3.solutionsFound then st3
      else sgTryCols next st3 row rest
    else sgTryCols next st row rest

/-- `solve(row)` of SolutionGenerator.  `fuel` is one unit per row level
(`size + 1` at the top level always suffices, since `row` only ever
increases to `size`); the 0-fuel branch is unreachable from `generate`. -/
def sgSolveAux : Nat → SGState → Nat → SGState
  | 0, st, _ => st
  | fuel1 + 1, st, row =>
    if 2 ≤ st.solutionsFound then st
    else if row = st.size then
      let st1 :=
        if st.solutionsFound = 0 then { st with firstSolution := some st.solution }
        else st
      { st1 with solutionsFound := st1.solutionsFound + 1 }
    else
      let sh := shuffleArray st.rng st.idx (List.range st.size)
      sgTryCols (fun st1 => sgSolveAux fuel1 st1 (row + 1))
        { st with idx := sh.2 } row sh.1

/-- The record returned by `SolutionGenerator.generate()`: the `solution`
field is `this.solution`, the working board, at the moment `solve(0)`
has returned. -/
structure SGResult where
  solution : Nat → Nat → Int
  count : Nat

/-- `generate()`: run `solve(0)` and return the working board and the
(capped) solution count; the final generator state (carrying
`firstSolution`) is returned alongside. -/
def SGState.generate (st : SGState) : SGResult × SGState :=
  let st1 := sgSolveAux (st.size + 1) st 0
  (⟨st1.solution, st1.solutionsFound⟩, st1)

/-- The rejection-sampling do/while of `placeRandomSeeds`: draw random
cells until one is not in `used`.  The source has no fuel: with a random
stream that keeps returning a used cell this loop never exits, which is
why the embedding returns `none` on fuel exhaustion. -/
def rgPickFree (size : Nat) (rng : Nat → Nat) (idx : Nat)
    (used : List (Nat × Nat)) : Nat → Option ((Nat × Nat) × Nat)
  | 0 => none
  | fuel + 1 =>
    let row := rng idx % size
    let col := rng (idx + 1) % size
    if (row, col) ∈ used then rgPickFree size rng (idx + 2) used fuel
    else some ((row, col), idx + 2)

/-- The `for (regionId...)` loop of `placeRandomSeeds`: place one seed
per region id, collecting the seed list. -/
def rgSeedsLoop (size : Nat) (rng : Nat → Nat) (fuel : Nat)
    (regions : Nat → Nat → Int) (idx : Nat) (used : List (Nat × Nat))
    (seeds : List ((Nat × Nat) × Nat)) :
    List Nat → Option ((Nat → Nat → Int) × Nat × List ((Nat × Nat) × Nat))
  | [] => some (regions, idx, seeds)
  | regionId :: rest =>
    match rgPickFree size rng idx used fuel with
    | none => none
    | some (cell, idx1) =>
      rgSeedsLoop size rng fuel (bupd regions cell.1 cell.2 (regionId : Int))
        idx1 (used ++ [cell]) (seeds ++ [(cell, regionId)]) rest

/-- `getUnassignedNeighbors(row, col)`: in-bounds 4-neighbours still
holding -1, in the JS delta order. -/
def rgUnassignedNeighbors (size : Nat) (regions : Nat → Nat → Int)
    (row col : Nat) : List (Nat × Nat) :=
  ([((-1 : Int), (0 : Int)), (1, 0), (0, -1), (0, 1)]).filterMap (fun d =>
    let nr := (row : Int) + d.1
    let nc := (col : Int) + d.2
    if 0 ≤ nr ∧ nr < (size : Int) ∧ 0 ≤ nc ∧ nc < (size : Int) then
      if regions nr.toNat nc.toNat = -1 then some (nr.toNat, nc.toNat)
      else none
    else none)

/-- `getAssignedNeighbors(row, col)`: in-bounds 4-neighbours already
assigned, paired with their region id. -/
def rgAssignedNeighbors (size : Nat) (regions : Nat → Nat → Int)
    (row col : Nat) : List ((Nat × Nat) × Int) :=
  ([((-1 : Int), (0 : Int)), (1, 0), (0, -1), (0, 1)]).filterMap (fun d =>
    let nr := (row : Int) + d.1
    let nc := (col : Int) + d.2
    if 0 ≤ nr ∧ nr < (size : Int) ∧ 0 ≤ nc ∧ nc < (size : Int) then
      if regions nr.toNat nc.toNat = -1 then none
      else some ((nr.toNat, nc.toNat), regions nr.toNat nc.toNat)
    else none)

/-- The per-region body of a growth round: pick a random frontier cell;
grow into a random unassigned 4-neighbour if possible, otherwise drop
the cell from the frontier. -/
def rgRoundStep (size : Nat) (rng : Nat → Nat)
    (state : (Nat → Nat → Int) × List (List (Nat × Nat)) × Nat × Bool)
    (regionId : Nat) :
    (Nat → Nat → Int) × List (List (Nat × Nat)) × Nat × Bool :=
  let regions := state.1
  let frontiers := state.2.1
  let idx := state.2.2.1
  let hasGrowth := state.2.2.2
  let fr := frontiers.getD regionId []
  if fr.length = 0 then state
  else
    let pi := rng idx % fr.length
    let cell := fr.getD pi (0, 0)
    let neighbors := rgUnassignedNeighbors size regions cell.1 cell.2
    if neighbors.length > 0 then
      let nb := neighbors.getD (rng (idx + 1) % neighbors.length) (0, 0)
      (bupd regions nb.1 nb.2 (regionId : Int),
        frontiers.set regionId (fr ++ [nb]), idx + 2, true)
    else
      (regions, frontiers.set regionId (fr.eraseIdx pi), idx + 1, hasGrowth)

/-- One iteration of the `while (hasGrowth)` loop of `growRegions`:
shuffle the region order, then process each region once. -/
def rgRound (size : Nat) (rng : Nat → Nat) (regions : Nat → Nat → Int)
    (frontiers : List (List (Nat × Nat))) (idx : Nat) :
    (Nat → Nat → Int) × List (List (Nat × Nat)) × Nat × Bool :=
  let sh := shuffleArray rng idx (List.range size)
  sh.1.foldl (rgRoundStep size rng) (regions, frontiers, sh.2, false)

/-- The `while (hasGrowth)` loop of `growRegions`.  Each growth round
assigns at least one cell, so the loop provably cannot run more than
size*size+1 rounds; the fuel makes that bound explicit. -/
def rgGrowLoop (size : Nat) (rng : Nat → Nat) (regions : Nat → Nat → Int)
    (frontiers : List (List (Nat × Nat))) (idx : Nat) :
    Nat → Option ((Nat → Nat → Int) × Nat)
  | 0 => none
  | fuel + 1 =>
    let st1 := rgRound size rng regions frontiers idx
    if st1.2.2.2 then rgGrowLoop size rng st1.1 st1.2.1 st1.2.2.1 fuel
    else some (st1.1, st1.2.2.1)

/-- `fillRemaining()`: one row-major pass assigning each still-unassigned
cell to the region of its first assigned 4-neighbour, if any. -/
def rgFillRemaining (size : Nat) (regions : Nat → Nat → Int) :
    Nat → Nat → Int :=
  (cellList size).foldl
    (fun regs p =>
      if regs p.1 p.2 = -1 then
        let neighbors := rgAssignedNeighbors size regs p.1 p.2
        if neighbors.length > 0 then
          bupd regs p.1 p.2 (neighbors.headD ((0, 0), 0)).2
        else regs
      else regs)
    regions

/-- `RegionGenerator.generate()`: seeds, growth, fill.  Returns the
final region map and the next random-stream position, or `none` if a
fuel bound was hit (only the seed loop can genuinely require unbounded
fuel). -/
def rgGenerate (size : Nat) (rng : Nat → Nat) (idx fuel : Nat) :
    Option ((Nat → Nat → Int) × Nat) :=
  match rgSeedsLoop size rng fuel (fun _ _ => (-1 : Int)) idx [] []
      (List.range size) with
  | none => none
  | some (regions, idx1, seeds) =>
    let frontiers := seeds.map (fun sd => [sd.1])
    match rgGrowLoop size rng regions frontiers idx1 fuel with
    | none => none
    | some (regions1, idx2) => some (rgFillRemaining size regions1, idx2)

/-- The optimal-path search's `STEP_COSTS` object; `none` models a key
that is absent from the object. -/
def stepCosts (t : String) : Option Nat :=
  if t = placeQueenRowType then some 1
  else if t = placeQueenColType then some 1
  else if t = placeQueenRegionType then some 1
  else if t = pointingEliminationType then some 2
  else if t = nishioEliminationType then some 4
  else if t = eliminateType then some 0
  else none

/-- A difficulty tier (`Difficulty.EASY` etc.): a name and a board size. -/
structure DifficultyTier where
  name : String
  size : Nat

/-- `QueensPuzzle`: the immutable puzzle value.  The `solution` field is
whatever `solutionGen.firstSolution` held at construction time, hence an
Option. -/
structure QueensPuzzle where
  size : Nat
  regions : Nat → Nat → Int
  solution : Option (Nat → Nat → Int)

/-- The per-tier thresholds of `getDifficultyTargets`. -/
structure DifficultyTargets where
  minScore : Nat
  minSteps : Nat
  requireAdvanced : Bool

/-- Tier name for comparisons. -/
def easyName : String := "easy"

/-- Tier name for comparisons. -/
def mediumName : String := "medium"

/-- `PuzzleGenerator.getDifficultyTargets(difficulty)`. -/
def getDifficultyTargets (d : DifficultyTier) : DifficultyTargets :=
  let base := d.size
  let name := d.name.toLower
  if name = easyName then ⟨base + 2, base + 2, false⟩
  else if name = mediumName then ⟨base + 6, base + 6, true⟩
  else ⟨base + 10, base + 8, true⟩

/-- The message of the error thrown when generation fails outright. -/
def genFailMsg : String :=
  "Unable to generate a puzzle that meets the strict criteria"

/-- The fixed context of one `PuzzleGenerator.generate` run: board size,
tier targets, time limit, generation step limit, loop-entry clock value,
the random and clock streams, and the fuel given to the region
generator's rejection-sampling loop. -/
structure GenCtx where
  size : Nat
  targets : DifficultyTargets
  timeLimitMs : Nat
  stepLimitForGen : Option Nat
  start : Nat
  rng : Nat → Nat
  clock : Nat → Nat
  rgFuel : Nat

/-- `logicResult.difficultyScore > fallbackScore`, with
`fallbackScore = -Infinity` modelled by `none`. -/
def beatsFallback (fallback : Option (QueensPuzzle × Nat × Nat))
    (score : Nat) : Bool :=
  match fallback with
  | none => true
  | some fb => decide (fb.2.1 < score)

/-- The `while (attempts < 2000)` loop of `PuzzleGenerator.generate`.
Returns `none` only when the region generator's unboundable seed loop
exhausted its fuel mid-run; otherwise `some (ok puzzle)` or
`some (error ...)` mirroring the return/throw of the source. -/
def genLoop (ctx : GenCtx) (attempts minScore minSteps : Nat)
    (fallback : Option (QueensPuzzle × Nat × Nat)) (ridx cidx : Nat) :
    Option (Except String QueensPuzzle) :=
  if _h : attempts < 2000 then
    let now := ctx.clock cidx
    if (ctx.timeLimitMs : Int) < (now : Int) - (ctx.start : Int) then
      match fallback with
      | some fb => some (Except.ok fb.1)
      | none => some (Except.error genFailMsg)
    else
      let attempts1 := attempts + 1
      match rgGenerate ctx.size ctx.rng ridx ctx.rgFuel with
      | none => none
      | some (regions, ridx1) =>
        let gen := (SGState.init ctx.size regions ctx.rng ridx1).generate
        let nextMins : Nat × Nat :=
          if attempts1 = 900 ∧ ctx.targets.minScore - 2 < minScore then
            (ctx.targets.minScore - 2, max 4 (minSteps - 2))
          else (minScore, minSteps)
        if gen.1.count = 1 then
          let solver := Solver.init ctx.size regions gen.2.firstSolution
          let logic := (solver.solveLogically true ctx.stepLimitForGen).2
          let puzzle : QueensPuzzle := ⟨ctx.size, regions, gen.2.firstSolution⟩
          let fallback1 :=
            if logic.solved && beatsFallback fallback logic.difficultyScore then
              some (puzzle, logic.difficultyScore, logic.steps.length)
            else fallback
          let meets := logic.solved
            && decide (minScore ≤ logic.difficultyScore)
            && decide (minSteps ≤ logic.steps.length)
            && (!ctx.targets.requireAdvanced || logic.usedAdvanced)
          if meets then some (Except.ok puzzle)
          else
            genLoop ctx attempts1 nextMins.1 nextMins.2 fallback1 gen.2.idx
              (cidx + 1)
        else
          genLoop ctx attempts1 nextMins.1 nextMins.2 fallback gen.2.idx
            (cidx + 1)
  else
    match fallback with
    | some fb => some (Except.ok fb.1)
    | none => some (Except.error genFailMsg)
termination_by 2000 - attempts

/-- `size >= 8 ? 400 : null`, the generation-time deduction step limit. -/
def stepLimitForSize (size : Nat) : Option Nat :=
  if 8 ≤ size then some 400 else none

/-- `size >= 8 ? 3500 : 2500`, the generation wall-clock budget in ms. -/
def timeLimitForSize (size : Nat) : Nat :=
  if 8 ≤ size then 3500 else 2500

/-- `PuzzleGenerator.generate(difficulty)`: set up targets, time limit
and step limit, then run the attempt loop. -/
def puzzleGenerate (d : DifficultyTier) (rng clock : Nat → Nat)
    (rgFuel : Nat) : Option (Except String QueensPuzzle) :=
  let size := d.size
  let targets := getDifficultyTargets d
  genLoop ⟨size, targets, timeLimitForSize size, stepLimitForSize size,
      clock 0, rng, clock, rgFuel⟩
    0 targets.minScore targets.minSteps none 0 1

/-! ## Specification-side predicates

The following definitions phrase the properties the claims assert; they
are stated over the embedded data, independent of the algorithms. -/

/-- A cell is inside the n-by-n grid. -/
def inGrid (n : Nat) (p : Nat × Nat) : Prop := p.1 < n ∧ p.2 < n

/-- Rook adjacency of two cells (4-neighbourhood). -/
def adj4 (p q : Nat × Nat) : Prop :=
  (p.1 = q.1 ∧ (p.2 + 1 = q.2 ∨ q.2 + 1 = p.2)) ∨
  (p.2 = q.2 ∧ (p.1 + 1 = q.1 ∨ q.1 + 1 = p.1))

/-- King adjacency of two distinct cells (|dRow| <= 1 and |dCol| <= 1). -/
def kingAdjacent (p q : Nat × Nat) : Prop :=
  p ≠ q ∧ p.1 ≤ q.1 + 1 ∧ q.1 ≤ p.1 + 1 ∧ p.2 ≤ q.2 + 1 ∧ q.2 ≤ p.2 + 1

/-- One connectivity step inside the cells of region `id`: move to an
in-grid 4-neighbour holding `id`. -/
def regionStep (n : Nat) (m : Nat → Nat → Int) (id : Int)
    (p q : Nat × Nat) : Prop :=
  inGrid n q ∧ m q.1 q.2 = id ∧ adj4 p q

/-- The cells of region `id` form a 4-connected set. -/
def RegionConnected (n : Nat) (m : Nat → Nat → Int) (id : Int) : Prop :=
  ∀ p q, inGrid n p → m p.1 p.2 = id → inGrid n q → m q.1 q.2 = id →
    Relation.ReflTransGen (regionStep n m id) p q

/-- `RegionGenerator.generate` terminates on this input for some fuel. -/
def rgTerminates (size : Nat) (rng : Nat → Nat) (idx : Nat) : Prop :=
  ∃ fuel, (rgGenerate size rng idx fuel).isSome

/-- Number of queens a 0/1 grid marks in one row (columns below n). -/
def queensInRow (sol : Nat → Nat → Int) (n row : Nat) : Nat :=
  ((List.range n).filter (fun c => sol row c == 1)).length

/-- Number of queens a 0/1 grid marks in one column (rows below n). -/
def queensInCol (sol : Nat → Nat → Int) (n col : Nat) : Nat :=
  ((List.range n).filter (fun r => sol r col == 1)).length

/-- Number of queens a 0/1 grid marks inside region `id`. -/
def queensInRegion (regions sol : Nat → Nat → Int) (n id : Nat) : Nat :=
  ((cellList n).filter
    (fun p => regions p.1 p.2 == (id : Int) && sol p.1 p.2 == 1)).length

/-- The property C2 asserts of a witness solution: one queen per row and
column, pairwise-distinct regions and no king adjacency among queens,
and (whenever the region map is well-formed) one queen per region id. -/
def validWitnessSolution (n : Nat) (regions sol : Nat → Nat → Int) : Prop :=
  (∀ r, r < n → queensInRow sol n r = 1) ∧
  (∀ c, c < n → queensInCol sol n c = 1) ∧
  (∀ p q, inGrid n p → inGrid n q → sol p.1 p.2 = 1 → sol q.1 q.2 = 1 →
    p ≠ q → regions p.1 p.2 ≠ regions q.1 q.2 ∧ ¬kingAdjacent p q) ∧
  ((∀ r c, r < n → c < n → 0 ≤ regions r c ∧ regions r c < (n : Int)) →
    ∀ id, id < n → queensInRegion regions sol n id = 1)

/-- The all-zeros random stream (an adversarial `Math.random`). -/
def constZeroStream : Nat → Nat := fun _ => 0

/-- A hand-built random stream under which `RegionGenerator.generate` on
a 4-by-4 board stalls with cells (0,0), (0,1), (1,0) unassigned and the
fill pass then leaves (0,0) unassigned: seeds at (0,3), (2,3), (3,2),
(3,3); identity shuffles; three growth rounds; one all-fail round. -/
def stallVals : List Nat :=
  [0, 3, 2, 3, 3, 2, 3, 3,
   3, 2, 1, 0, 0, 0, 0, 0, 0, 0,
   3, 2, 1, 1, 0, 1, 0, 1, 0,
   3, 2, 1, 2, 0, 2, 0, 2, 0,
   3, 2, 1, 0, 0, 0]

/-- The stream holding `stallVals` then zeros. -/
def stallRng : Nat → Nat := fun k => stallVals.getD k 0

/-- What C7 guarantees of every puzzle `PuzzleGenerator.generate`
returns: right size, a recorded witness solution that the deduction
solver (run exactly as the generator runs it) fully solves and matches,
and a uniqueness-solver run on the same region map that reported exactly
one solution with that witness. -/
def GoodPuzzle (d : DifficultyTier) (p : QueensPuzzle) : Prop :=
  p.size = d.size ∧
  ∃ g, p.solution = some g ∧
    ((Solver.init p.size p.regions (some g)).solveLogically true
      (stepLimitForSize p.size)).2.solved = true ∧
    ∃ rng i,
      ((SGState.init p.size p.regions rng i).generate).1.count = 1 ∧
      ((SGState.init p.size p.regions rng i).generate).2.firstSolution = some g

/-- The intermediate solver state of `setQueen` right after the queen
is written and the step pushed, before the cascading eliminations. -/
def placedState (s : Solver) (row col : Nat) (re : Option String)
    (ty : String) : Solver :=
  { s with board := bupd s.board row col 1,
           steps := s.steps ++ [⟨ty, row, col, re⟩] }

/-- A sample solver state for concrete instantiations: size 2, one
region per row, a crossed-out cell at (0,0), a queen at (1,1). -/
def sampleSolver : Solver :=
  ⟨2, fun r _ => (r : Int), none,
    fun x y => if x = 0 ∧ y = 0 then -1 else if x = 1 ∧ y = 1 then 1 else 0,
    []⟩

/-- A sample solver with an all-Unknown 2-by-2 board, one region per
row. -/
def freshSolver : Solver :=
  Solver.init 2 (fun r _ => (r : Int)) none

/-- The invariant the backtracking search of SolutionGenerator maintains
while `solve(row)` runs: the board is the n-by-n board of the puzzle,
its queens sit exactly one per already-processed row at in-range
columns, queens pairwise occupy distinct columns and regions and are
never king-adjacent, and the `usedCols`/`usedRegions` sets hold exactly
the columns and regions of the placed queens. -/
structure SGInv (n : Nat) (regions : Nat → Nat → Int) (st : SGState)
    (row : Nat) : Prop where
  size_eq : st.size = n
  regions_eq : st.regions = regions
  row_le : row ≤ n
  queens : ∀ r c, st.solution r c ≠ 0 → st.solution r c = 1 ∧ r < row ∧ c < n
  rowFull : ∀ r, r < row → ∃ c, c < n ∧ st.solution r c = 1
  rowUniq : ∀ r c1 c2, st.solution r c1 = 1 → st.solution r c2 = 1 → c1 = c2
  distinct : ∀ r1 c1 r2 c2, st.solution r1 c1 = 1 → st.solution r2 c2 = 1 →
    (r1, c1) ≠ (r2, c2) →
    c1 ≠ c2 ∧ regions r1 c1 ≠ regions r2 c2 ∧
      ¬kingAdjacent (r1, c1) (r2, c2)
  cols_iff : ∀ c, c ∈ st.usedCols ↔ ∃ r, st.solution r c = 1
  regs_iff : ∀ g, g ∈ st.usedRegions ↔
    ∃ r c, st.solution r c = 1 ∧ st.regions r c = g

/-- What holds of the `firstSolution`/`solutionsFound` fields: every
recorded first solution is a valid witness, and a positive count means
one was recorded. -/
def sgGoodFirst (n : Nat) (regions : Nat → Nat → Int) (st : SGState) :
    Prop :=
  (∀ g, st.firstSolution = some g → validWitnessSolution n regions g) ∧
  (1 ≤ st.solutionsFound → st.firstSolution.isSome)

/-- Value discipline of a (partial) region map: every in-grid cell is
unassigned (-1) or holds an id in [0, size). -/
def rgVals (size : Nat) (m : Nat → Nat → Int) : Prop :=
  ∀ r c, r < size → c < size → m r c = -1 ∨ (0 ≤ m r c ∧ m r c < (size : Int))

/-- Every region id below size has a 4-connected cell set. -/
def rgConnAll (size : Nat) (m : Nat → Nat → Int) : Prop :=
  ∀ id : Nat, id < size → RegionConnected size m (id : Int)

/-- The second map only ever extends the first: assigned cells are
never overwritten. -/
def rgNoOv (m m2 : Nat → Nat → Int) : Prop :=
  ∀ r c, m r c ≠ -1 → m2 r c = m r c

/-- Frontier discipline of the growth loop: one frontier list per
region id, every frontier cell in-grid and part of its region. -/
def rgFrontOK (size : Nat) (m : Nat → Nat → Int)
    (frontiers : List (List (Nat × Nat))) : Prop :=
  frontiers.length = size ∧
  ∀ rid, rid < size → ∀ p ∈ frontiers.getD rid [], inGrid size p ∧
    m p.1 p.2 = (rid : Int)

/-- A clock stream whose first reading is 0 and whose later readings
exceed every time budget: the generation loop then times out on its
first attempt. -/
def lateClock : Nat → Nat := fun k => if k = 0 then 0 else 1000000

/-- The logical-solver run the generator performs on a candidate
puzzle (allowNishio = true, the generation-time step limit),
recomputed from the puzzle value itself. -/
def pLogic (sl : Option Nat) (p : QueensPuzzle) : LogicResult :=
  ((Solver.init p.size p.regions p.solution).solveLogically true sl).2

/-- The two values the per-attempt minimums can take during a run:
the tier targets as given, or the one-time relaxation applied at
attempt 900. -/
def relaxedMins (t : DifficultyTargets) (ms mst : Nat) : Prop :=
  (ms = t.minScore ∧ mst = t.minSteps) ∨
  (ms = t.minScore - 2 ∧ mst = max 4 (t.minSteps - 2))

/-- A puzzle meets the given minimums: the deduction solver (run as
the generator runs it) solves it, with difficulty score and step
count at least the minimums, and an advanced technique used whenever
the tier requires one. -/
def meetsMins (sl : Option Nat) (t : DifficultyTargets) (ms mst : Nat)
    (p : QueensPuzzle) : Prop :=
  (pLogic sl p).solved = true ∧
  ms ≤ (pLogic sl p).difficultyScore ∧
  mst ≤ (pLogic sl p).steps.length ∧
  (t.requireAdvanced = true → (pLogic sl p).usedAdvanced = true)

/-- What the fallback slot of the generation loop holds relative to
the candidates consumed so far: a good puzzle the deduction solver
solves, with its recorded score accurate, drawn from the consumed
candidates, and of maximal score among the solvable ones. -/
def FBProp (d : DifficultyTier) (ctx : GenCtx)
    (consumed : List QueensPuzzle) (fb : QueensPuzzle × Nat × Nat) :
    Prop :=
  GoodPuzzle d fb.1 ∧
  (pLogic ctx.stepLimitForGen fb.1).solved = true ∧
  fb.2.1 = (pLogic ctx.stepLimitForGen fb.1).difficultyScore ∧
  fb.1 ∈ consumed ∧
  (∀ q ∈ consumed, (pLogic ctx.stepLimitForGen q).solved = true →
    (pLogic ctx.stepLimitForGen q).difficultyScore ≤ fb.2.1)

/-- The context `PuzzleGenerator.generate(difficulty)` builds before
entering its attempt loop. -/
def genCtxFor (d : DifficultyTier) (rng clock : Nat → Nat)
    (rgFuel : Nat) : GenCtx :=
  ⟨d.size, getDifficultyTargets d, timeLimitForSize d.size,
    stepLimitForSize d.size, clock 0, rng, clock, rgFuel⟩

/-- The puzzle value one attempt of the loop constructs from its
freshly generated region map. -/
def attemptPuzzle (ctx : GenCtx) (regions : Nat → Nat → Int)
    (ridx1 : Nat) : QueensPuzzle :=
  ⟨ctx.size, regions,
    ((SGState.init ctx.size regions ctx.rng ridx1).generate).2.firstSolution⟩

/-- The fallback update one unique-count attempt performs: replace the
fallback when the attempt is solved and strictly beats the stored
score, keep it otherwise. -/
def attemptFallback1 (ctx : GenCtx) (regions : Nat → Nat → Int)
    (ridx1 : Nat) (fallback : Option (QueensPuzzle × Nat × Nat)) :
    Option (QueensPuzzle × Nat × Nat) :=
  let logic := pLogic ctx.stepLimitForGen (attemptPuzzle ctx regions ridx1)
  if logic.solved && beatsFallback fallback logic.difficultyScore then
    some (attemptPuzzle ctx regions ridx1, logic.difficultyScore,
      logic.steps.length)
  else fallback

/-- The unique-solution candidates a `genLoop` run constructs, in
order: one entry per attempt whose region map admitted exactly one
solution, ending exactly where the loop ends (acceptance, time-out,
attempt cap, or region-generation fuel exhaustion).  The control flow
mirrors `genLoop`; the fallback plays no part in it. -/
def genCandidates (ctx : GenCtx) (attempts minScore minSteps : Nat)
    (ridx cidx : Nat) : List QueensPuzzle :=
  if _h : attempts < 2000 then
    let now := ctx.clock cidx
    if (ctx.timeLimitMs : Int) < (now : Int) - (ctx.start : Int) then []
    else
      let attempts1 := attempts + 1
      match rgGenerate ctx.size ctx.rng ridx ctx.rgFuel with
      | none => []
      | some (regions, ridx1) =>
        let gen := (SGState.init ctx.size regions ctx.rng ridx1).generate
        let nextMins : Nat × Nat :=
          if attempts1 = 900 ∧ ctx.targets.minScore - 2 < minScore then
            (ctx.targets.minScore - 2, max 4 (minSteps - 2))
          else (minScore, minSteps)
        if gen.1.count = 1 then
          let solver := Solver.init ctx.size regions gen.2.firstSolution
          let logic := (solver.solveLogically true ctx.stepLimitForGen).2
          let puzzle : QueensPuzzle := ⟨ctx.size, regions, gen.2.firstSolution⟩
          let meets := logic.solved
            && decide (minScore ≤ logic.difficultyScore)
            && decide (minSteps ≤ logic.steps.length)
            && (!ctx.targets.requireAdvanced || logic.usedAdvanced)
          if meets then [puzzle]
          else puzzle :: genCandidates ctx attempts1 nextMins.1 nextMins.2
            gen.2.idx (cidx + 1)
        else
          genCandidates ctx attempts1 nextMins.1 nextMins.2 gen.2.idx
            (cidx + 1)
  else []
termination_by 2000 - attempts

/-! ## Theorems -/

theorem bupd_self (b : Nat → Nat → Int) (r c : Nat) (v : Int) :
    bupd b r c v r c = v := by
  simp [bupd]

theorem bupd_other (b : Nat → Nat → Int) (r c : Nat) (v : Int) (x y : Nat)
    (h : ¬(x = r ∧ y = c)) : bupd b r c v x y = b x y := by
  simp [bupd, h]

theorem si_contra_state (s : Solver) (r c : Nat) (re : Option String)
    (ty : String) (h : s.board r c = 1) :
    s.setImpossible r c re ty = (s, .contra) := by
  simp [Solver.setImpossible, h]

theorem si_noop_state (s : Solver) (r c : Nat) (re : Option String)
    (ty : String) (h : s.board r c = -1) :
    s.setImpossible r c re ty = (s, .ok false) := by
  have h1 : s.board r c ≠ 1 := by rw [h]; decide
  simp [Solver.setImpossible, h, h1]

theorem si_size (s : Solver) (r c : Nat) (re : Option String) (ty : String) :
    (s.setImpossible r c re ty).1.size = s.size := by
  by_cases h1 : s.board r c = 1
  · simp [Solver.setImpossible, h1]
  · by_cases h2 : s.board r c = -1
    · simp [Solver.setImpossible, h1, h2]
    · cases re <;> simp [Solver.setImpossible, h1, h2]

theorem si_regions (s : Solver) (r c : Nat) (re : Option String)
    (ty : String) : (s.setImpossible r c re ty).1.regions = s.regions := by
  by_cases h1 : s.board r c = 1
  · simp [Solver.setImpossible, h1]
  · by_cases h2 : s.board r c = -1
    · simp [Solver.setImpossible, h1, h2]
    · cases re <;> simp [Solver.setImpossible, h1, h2]

theorem si_target (s : Solver) (r c : Nat) (re : Option String)
    (ty : String) : (s.setImpossible r c re ty).1.target = s.target := by
  by_cases h1 : s.board r c = 1
  · simp [Solver.setImpossible, h1]
  · by_cases h2 : s.board r c = -1
    · simp [Solver.setImpossible, h1, h2]
    · cases re <;> simp [Solver.setImpossible, h1, h2]

theorem si_steps_none (s : Solver) (r c : Nat) (ty : String) :
    (s.setImpossible r c none ty).1.steps = s.steps := by
  by_cases h1 : s.board r c = 1
  · simp [Solver.setImpossible, h1]
  · by_cases h2 : s.board r c = -1
    · simp [Solver.setImpossible, h1, h2]
    · simp [Solver.setImpossible, h1, h2]

theorem si_board_other (s : Solver) (r c : Nat) (re : Option String)
    (ty : String) (x y : Nat) (h : ¬(x = r ∧ y = c)) :
    (s.setImpossible r c re ty).1.board x y = s.board x y := by
  by_cases h1 : s.board r c = 1
  · simp [Solver.setImpossible, h1]
  · by_cases h2 : s.board r c = -1
    · simp [Solver.setImpossible, h1, h2]
    · cases re <;> simp [Solver.setImpossible, h1, h2, bupd_other, h]

theorem si_board_one_preserved (s : Solver) (r c : Nat) (re : Option String)
    (ty : String) (x y : Nat) (h : s.board x y = 1) :
    (s.setImpossible r c re ty).1.board x y = 1 := by
  by_cases hxy : x = r ∧ y = c
  · obtain ⟨hx, hy⟩ := hxy
    subst hx; subst hy
    rw [si_contra_state s x y re ty h]
    exact h
  · rw [si_board_other s r c re ty x y hxy]; exact h

theorem si_board_minus_preserved (s : Solver) (r c : Nat)
    (re : Option String) (ty : String) (x y : Nat) (h : s.board x y = -1) :
    (s.setImpossible r c re ty).1.board x y = -1 := by
  by_cases hxy : x = r ∧ y = c
  · obtain ⟨hx, hy⟩ := hxy
    subst hx; subst hy
    rw [si_noop_state s x y re ty h]
    exact h
  · rw [si_board_other s r c re ty x y hxy]; exact h

theorem si_board_zero_sub (s : Solver) (r c : Nat) (re : Option String)
    (ty : String) (x y : Nat)
    (h : (s.setImpossible r c re ty).1.board x y = 0) : s.board x y = 0 := by
  by_cases hxy : x = r ∧ y = c
  · obtain ⟨hx, hy⟩ := hxy
    subst hx; subst hy
    by_cases h1 : s.board x y = 1
    · rw [si_contra_state s x y re ty h1] at h; exact h
    · by_cases h2 : s.board x y = -1
      · rw [si_noop_state s x y re ty h2] at h; exact h
      · exfalso
        cases re <;> simp [Solver.setImpossible, h1, h2, bupd_self] at h
  · rw [si_board_other s r c re ty x y hxy] at h; exact h

theorem si_marked (s : Solver) (r c : Nat) (re : Option String) (ty : String)
    (h : (s.setImpossible r c re ty).2 ≠ .contra) :
    (s.setImpossible r c re ty).1.board r c = -1 := by
  by_cases h1 : s.board r c = 1
  · exact absurd (by rw [si_contra_state s r c re ty h1]) h
  · by_cases h2 : s.board r c = -1
    · rw [si_noop_state s r c re ty h2]; exact h2
    · cases re <;> simp [Solver.setImpossible, h1, h2, bupd_self]

theorem mc_frame (cells : List (Nat × Nat)) (s : Solver) (ch : Bool) :
    (s.markCells cells ch).1.size = s.size ∧
    (s.markCells cells ch).1.regions = s.regions ∧
    (s.markCells cells ch).1.target = s.target ∧
    (s.markCells cells ch).1.steps = s.steps := by
  induction cells generalizing s ch with
  | nil => simp [Solver.markCells]
  | cons p rest ih =>
    rw [Solver.markCells]
    rcases hres : s.setImpossible p.1 p.2 none eliminateType with ⟨s1, res⟩
    have hsz := si_size s p.1 p.2 none eliminateType
    have hrg := si_regions s p.1 p.2 none eliminateType
    have htg := si_target s p.1 p.2 none eliminateType
    have hst := si_steps_none s p.1 p.2 eliminateType
    rw [hres] at hsz hrg htg hst
    cases res with
    | contra => simpa using ⟨hsz, hrg, htg, hst⟩
    | ok b =>
      have := ih s1 (ch || b)
      simp only []
      refine ⟨?_, ?_, ?_, ?_⟩
      · rw [this.1, hsz]
      · rw [this.2.1, hrg]
      · rw [this.2.2.1, htg]
      · rw [this.2.2.2, hst]

theorem mc_board_one_preserved (cells : List (Nat × Nat)) (s : Solver)
    (ch : Bool) (x y : Nat) (h : s.board x y = 1) :
    (s.markCells cells ch).1.board x y = 1 := by
  induction cells generalizing s ch with
  | nil => simpa [Solver.markCells] using h
  | cons p rest ih =>
    rw [Solver.markCells]
    rcases hres : s.setImpossible p.1 p.2 none eliminateType with ⟨s1, res⟩
    have hpres := si_board_one_preserved s p.1 p.2 none eliminateType x y h
    rw [hres] at hpres
    cases res with
    | contra => simpa using hpres
    | ok b => simpa using ih s1 (ch || b) hpres

theorem mc_board_minus_preserved (cells : List (Nat × Nat)) (s : Solver)
    (ch : Bool) (x y : Nat) (h : s.board x y = -1) :
    (s.markCells cells ch).1.board x y = -1 := by
  induction cells generalizing s ch with
  | nil => simpa [Solver.markCells] using h
  | cons p rest ih =>
    rw [Solver.markCells]
    rcases hres : s.setImpossible p.1 p.2 none eliminateType with ⟨s1, res⟩
    have hpres := si_board_minus_preserved s p.1 p.2 none eliminateType x y h
    rw [hres] at hpres
    cases res with
    | contra => simpa using hpres
    | ok b => simpa using ih s1 (ch || b) hpres

theorem mc_board_zero_sub (cells : List (Nat × Nat)) (s : Solver)
    (ch : Bool) (x y : Nat)
    (h : (s.markCells cells ch).1.board x y = 0) : s.board x y = 0 := by
  induction cells generalizing s ch with
  | nil => simpa [Solver.markCells] using h
  | cons p rest ih =>
    rw [Solver.markCells] at h
    rcases hres : s.setImpossible p.1 p.2 none eliminateType with ⟨s1, res⟩
    rw [hres] at h
    have hsub := si_board_zero_sub s p.1 p.2 none eliminateType x y
    rw [hres] at hsub
    cases res with
    | contra => exact hsub (by simpa using h)
    | ok b => exact hsub (ih s1 (ch || b) (by simpa using h))

theorem mc_marked (cells : List (Nat × Nat)) (s s1 : Solver) (ch b : Bool)
    (h : s.markCells cells ch = (s1, .ok b)) :
    ∀ p, p ∈ cells → s1.board p.1 p.2 = -1 := by
  induction cells generalizing s ch with
  | nil => intro p hp; cases hp
  | cons q rest ih =>
    intro p hp
    rw [Solver.markCells] at h
    rcases hres : s.setImpossible q.1 q.2 none eliminateType with ⟨s2, res⟩
    rw [hres] at h
    cases res with
    | contra => simp at h
    | ok b2 =>
      simp only [] at h
      rcases List.mem_cons.mp hp with hpq | hprest
      · subst hpq
        have hm : s2.board p.1 p.2 = -1 := by
          have := si_marked s p.1 p.2 none eliminateType (by rw [hres]; simp)
          rwa [hres] at this
        have := mc_board_minus_preserved rest s2 (ch || b2) p.1 p.2 hm
        rwa [h] at this
      · exact ih s2 (ch || b2) h p hprest

/-- C9: the optimal-path search cost table assigns 1 to each hidden
single, 2 to pointing, 4 to Nishio and 0 to plain elimination; the
difficulty scorer assigns 1, 1, 1, 2 and 3; the tables agree on every
step type except Nishio elimination (4 versus 3). -/
theorem claim_C9_cost_tables :
    stepCosts placeQueenRowType = some 1 ∧
    stepCosts placeQueenColType = some 1 ∧
    stepCosts placeQueenRegionType = some 1 ∧
    stepCosts pointingEliminationType = some 2 ∧
    stepCosts nishioEliminationType = some 4 ∧
    stepCosts eliminateType = some 0 ∧
    scorerWeight placeQueenRowType = 1 ∧
    scorerWeight placeQueenColType = 1 ∧
    scorerWeight placeQueenRegionType = 1 ∧
    scorerWeight pointingEliminationType = 2 ∧
    scorerWeight nishioEliminationType = 3 ∧
    scorerWeight eliminateType = 0 ∧
    ([placeQueenRowType, placeQueenColType, placeQueenRegionType,
      pointingEliminationType, eliminateType].all
      (fun t => (stepCosts t).getD 0 == scorerWeight t) = true) ∧
    (stepCosts nishioEliminationType).getD 0 ≠
      scorerWeight nishioEliminationType := by
  decide

/-- C5: placing a queen on an Eliminated cell returns a first-class
contradiction result with the solver state (board and step list)
untouched, and eliminating a cell that holds a queen likewise; both are
total functions (no exception). -/
theorem claim_C5_contradiction_results (s : Solver) (row col : Nat)
    (re re2 : Option String) (ty ty2 : String) :
    (s.board row col = -1 → s.setQueen row col re ty = (s, .contra)) ∧
    (s.board row col = 1 → s.setImpossible row col re2 ty2 = (s, .contra)) := by
  constructor
  · intro h
    have h1 : s.board row col ≠ 1 := by rw [h]; decide
    simp [Solver.setQueen, h, h1]
  · intro h
    exact si_contra_state s row col re2 ty2 h

theorem claim_C5_witness :
    sampleSolver.board 0 0 = -1 ∧ sampleSolver.board 1 1 = 1 ∧
    sampleSolver.setQueen 0 0 none placeQueenType = (sampleSolver, .contra) ∧
    sampleSolver.setImpossible 1 1 none eliminateType =
      (sampleSolver, .contra) :=
  ⟨rfl, rfl,
    (claim_C5_contradiction_results sampleSolver 0 0 none none placeQueenType
      eliminateType).1 rfl,
    (claim_C5_contradiction_results sampleSolver 1 1 none none placeQueenType
      eliminateType).2 rfl⟩

/-- C8: applying setImpossible twice to one cell yields exactly the
state (board and steps) of applying it once; the second call reports no
change (unless the cell holds a queen, in which case both calls report
contradiction and change nothing); setQueen on an existing queen is a
no-op reporting no change. -/
theorem claim_C8_idempotence (s : Solver) (row col : Nat)
    (re re2 : Option String) (ty ty2 : String) :
    ((s.setImpossible row col re ty).1.setImpossible row col re2 ty2 =
      ((s.setImpossible row col re ty).1,
        if s.board row col = 1 then .contra else .ok false)) ∧
    (s.board row col = 1 → s.setQueen row col re ty = (s, .ok false)) := by
  constructor
  · by_cases h1 : s.board row col = 1
    · rw [si_contra_state s row col re ty h1]
      simp only [if_pos h1]
      exact si_contra_state s row col re2 ty2 h1
    · have hm : (s.setImpossible row col re ty).1.board row col = -1 := by
        by_cases h2 : s.board row col = -1
        · rw [si_noop_state s row col re ty h2]; exact h2
        · apply si_marked
          intro hcon
          have := si_contra_state s row col re ty
          by_cases h2b : s.board row col = -1
          · exact h2 h2b
          · cases re <;> simp [Solver.setImpossible, h1, h2] at hcon
      rw [si_noop_state _ row col re2 ty2 hm]
      simp only [if_neg h1]
  · intro h
    simp [Solver.setQueen, h]

theorem claim_C8_witness :
    ((sampleSolver.setImpossible 0 1 (some reasonOnlyRow)
        eliminateType).1.setImpossible 0 1 none eliminateType =
      ((sampleSolver.setImpossible 0 1 (some reasonOnlyRow)
        eliminateType).1,
        if sampleSolver.board 0 1 = 1 then .contra else .ok false)) ∧
    sampleSolver.setQueen 1 1 none placeQueenType =
      (sampleSolver, .ok false) :=
  ⟨(claim_C8_idempotence sampleSolver 0 1 (some reasonOnlyRow) none
      eliminateType eliminateType).1,
    (claim_C8_idempotence sampleSolver 1 1 none none placeQueenType
      eliminateType).2 rfl⟩

/-- C10: the cascading eliminations of a queen placement call
setImpossible with no reason; such calls mutate only the board, so
crossOutFromQueen leaves the step list (and size, regions, target, and
hence the difficulty score, which sums weights over recorded steps
only) unchanged. -/
theorem claim_C10_cascade_unrecorded (s : Solver) (row col : Nat) :
    (∀ (r c : Nat) (ty : String),
      (s.setImpossible r c none ty).1.steps = s.steps) ∧
    (s.crossOutFromQueen row col).1.steps = s.steps ∧
    (s.crossOutFromQueen row col).1.size = s.size ∧
    (s.crossOutFromQueen row col).1.regions = s.regions ∧
    (s.crossOutFromQueen row col).1.target = s.target ∧
    (s.crossOutFromQueen row col).1.getDifficultyScore =
      s.getDifficultyScore := by
  have hframe := mc_frame
    (rowMates s.size row col ++ colMates s.size row col ++
      kingNeighbors s.size row col ++ regionMates s row col) s false
  refine ⟨fun r c ty => si_steps_none s r c ty, hframe.2.2.2, hframe.1,
    hframe.2.1, hframe.2.2.1, ?_⟩
  unfold Solver.getDifficultyScore
  rw [show (s.crossOutFromQueen row col).1.steps = s.steps from
    hframe.2.2.2]

theorem mem_rowMates (size row col c2 : Nat) (h1 : c2 < size)
    (h2 : c2 ≠ col) : (row, c2) ∈ rowMates size row col := by
  simp only [rowMates, List.mem_map, List.mem_filter, List.mem_range,
    decide_eq_true_eq]
  exact ⟨c2, ⟨h1, h2⟩, rfl⟩

theorem mem_colMates (size row col r2 : Nat) (h1 : r2 < size)
    (h2 : r2 ≠ row) : (r2, col) ∈ colMates size row col := by
  simp only [colMates, List.mem_map, List.mem_filter, List.mem_range,
    decide_eq_true_eq]
  exact ⟨r2, ⟨h1, h2⟩, rfl⟩

theorem mem_kingNeighbors (size row col : Nat) (dr dc : Int)
    (hdr : dr.natAbs ≤ 1) (hdc : dc.natAbs ≤ 1) (hne : ¬(dr = 0 ∧ dc = 0))
    (h1 : 0 ≤ (row : Int) + dr) (h2 : (row : Int) + dr < (size : Int))
    (h3 : 0 ≤ (col : Int) + dc) (h4 : (col : Int) + dc < (size : Int)) :
    (((row : Int) + dr).toNat, ((col : Int) + dc).toNat) ∈
      kingNeighbors size row col := by
  have hdr3 : dr = -1 ∨ dr = 0 ∨ dr = 1 := by omega
  have hdc3 : dc = -1 ∨ dc = 0 ∨ dc = 1 := by omega
  simp only [kingNeighbors, List.mem_flatMap, List.mem_filterMap]
  refine ⟨dr, by rcases hdr3 with h | h | h <;> simp [h], dc,
    by rcases hdc3 with h | h | h <;> simp [h], ?_⟩
  rw [if_neg hne, if_pos ⟨h1, h2, h3, h4⟩]

theorem mem_regionMates (s : Solver) (row col r2 c2 : Nat)
    (h1 : r2 < s.size) (h2 : c2 < s.size) (h3 : ¬(r2 = row ∧ c2 = col))
    (h4 : s.regions r2 c2 = s.regions row col) :
    (r2, c2) ∈ regionMates s row col := by
  simp only [regionMates, List.mem_flatMap, List.mem_filterMap,
    List.mem_range]
  exact ⟨r2, h1, c2, h2, by rw [if_neg h3, if_neg (by simp [h4])]⟩

/-- C4: a setQueen call that returns changed places the queen at (r,c)
and leaves every other cell of the row, of the column, every in-bounds
king neighbour, and every other cell of the region Eliminated; if the
cascading eliminations find a contradiction, setQueen propagates the
contradiction result (leaving the board as the cascade left it). -/
theorem claim_C4_setQueen_eliminates (s : Solver) (row col : Nat)
    (re : Option String) (ty : String) (s2 : Solver) (_hrow : row < s.size)
    (_hcol : col < s.size) :
    (s.setQueen row col re ty = (s2, .ok true) →
      s2.board row col = 1 ∧
      (∀ c2, c2 < s.size → c2 ≠ col → s2.board row c2 = -1) ∧
      (∀ r2, r2 < s.size → r2 ≠ row → s2.board r2 col = -1) ∧
      (∀ dr dc : Int, dr.natAbs ≤ 1 → dc.natAbs ≤ 1 →
        ¬(dr = 0 ∧ dc = 0) → 0 ≤ (row : Int) + dr →
        (row : Int) + dr < (s.size : Int) → 0 ≤ (col : Int) + dc →
        (col : Int) + dc < (s.size : Int) →
        s2.board ((row : Int) + dr).toNat ((col : Int) + dc).toNat = -1) ∧
      (∀ r2 c2, r2 < s.size → c2 < s.size → ¬(r2 = row ∧ c2 = col) →
        s.regions r2 c2 = s.regions row col → s2.board r2 c2 = -1)) ∧
    (∀ s3, s.board row col ≠ 1 → s.board row col ≠ -1 →
      (placedState s row col re ty).crossOutFromQueen row col =
        (s3, .contra) →
      s.setQueen row col re ty = (s3, .contra)) := by
  have hq : s.board row col ≠ 1 → s.board row col ≠ -1 →
      s.setQueen row col re ty =
        (match (placedState s row col re ty).crossOutFromQueen row col with
         | (sc, .contra) => (sc, .contra)
         | (sc, .ok _) => (sc, .ok true)) := by
    intro h1 h2
    simp [Solver.setQueen, h1, h2, placedState]
  constructor
  · intro h
    by_cases h1 : s.board row col = 1
    · simp [Solver.setQueen, h1] at h
    · by_cases h2 : s.board row col = -1
      · simp [Solver.setQueen, h1, h2] at h
      · rcases hco : (placedState s row col re ty).crossOutFromQueen row col
          with ⟨sco, res⟩
        rw [hq h1 h2, hco] at h
        cases res with
        | contra => simp at h
        | ok b =>
          simp only [] at h
          have hs2 : s2 = sco := by
            have := congrArg Prod.fst h
            simpa using this.symm
          subst hs2
          have hmc : (placedState s row col re ty).markCells
              (rowMates (placedState s row col re ty).size row col ++
                colMates (placedState s row col re ty).size row col ++
                kingNeighbors (placedState s row col re ty).size row col ++
                regionMates (placedState s row col re ty) row col)
              false = (s2, .ok b) := by
            rw [← Solver.crossOutFromQueen, hco]
          have hmarked := mc_marked _ _ s2 false b hmc
          have hsz1 : (placedState s row col re ty).size = s.size := rfl
          have hone : (placedState s row col re ty).board row col = 1 :=
            bupd_self s.board row col 1
          refine ⟨?_, ?_, ?_, ?_, ?_⟩
          · have := mc_board_one_preserved
              (rowMates (placedState s row col re ty).size row col ++
                colMates (placedState s row col re ty).size row col ++
                kingNeighbors (placedState s row col re ty).size row col ++
                regionMates (placedState s row col re ty) row col)
              (placedState s row col re ty) false row col hone
            rw [hmc] at this
            exact this
          · intro c2 hc2 hc2ne
            exact hmarked (row, c2)
              (by
                rw [hsz1]
                exact List.mem_append_left _ (List.mem_append_left _
                  (List.mem_append_left _
                    (mem_rowMates s.size row col c2 hc2 hc2ne))))
          · intro r2 hr2 hr2ne
            exact hmarked (r2, col)
              (by
                rw [hsz1]
                exact List.mem_append_left _ (List.mem_append_left _
                  (List.mem_append_right _
                    (mem_colMates s.size row col r2 hr2 hr2ne))))
          · intro dr dc hdr hdc hne hb1 hb2 hb3 hb4
            exact hmarked _
              (by
                rw [hsz1]
                exact List.mem_append_left _ (List.mem_append_right _
                  (mem_kingNeighbors s.size row col dr dc hdr hdc hne hb1
                    hb2 hb3 hb4)))
          · intro r2 c2 hr2 hc2 hne hreg
            exact hmarked (r2, c2)
              (List.mem_append_right _
                (mem_regionMates (placedState s row col re ty) row col r2 c2
                  hr2 hc2 hne hreg))
  · intro s3 h1 h2 hco
    rw [hq h1 h2, hco]

theorem claim_C4_witness :
    freshSolver.setQueen 0 0 none placeQueenType =
      ((freshSolver.setQueen 0 0 none placeQueenType).1, .ok true) ∧
    (freshSolver.setQueen 0 0 none placeQueenType).1.board 0 0 = 1 ∧
    (freshSolver.setQueen 0 0 none placeQueenType).1.board 0 1 = -1 ∧
    (freshSolver.setQueen 0 0 none placeQueenType).1.board 1 0 = -1 ∧
    (freshSolver.setQueen 0 0 none placeQueenType).1.board 1 1 = -1 := by
  have hpair : freshSolver.setQueen 0 0 none placeQueenType =
      ((freshSolver.setQueen 0 0 none placeQueenType).1, .ok true) := by
    rfl
  have hmain := (claim_C4_setQueen_eliminates freshSolver 0 0 none
    placeQueenType (freshSolver.setQueen 0 0 none placeQueenType).1
    (by decide) (by decide)).1 hpair
  refine ⟨hpair, hmain.1, ?_, ?_, ?_⟩
  · exact hmain.2.1 1 (by decide) (by decide)
  · exact hmain.2.2.1 1 (by decide) (by decide)
  · have := hmain.2.2.2.1 1 1 (by decide) (by decide) (by decide)
      (by decide) (by decide) (by decide) (by decide)
    simpa using this

theorem length_filter_lt {α : Type} (l : List α) (p q : α → Bool)
    (h : ∀ a, p a = true → q a = true) (a0 : α) (ha0 : a0 ∈ l)
    (hq : q a0 = true) (hp : p a0 = false) :
    (l.filter p).length < (l.filter q).length := by
  induction l with
  | nil => cases ha0
  | cons a t ih =>
    rcases List.mem_cons.mp ha0 with rfl | hmem
    · rw [List.filter_cons_of_pos hq, List.filter_cons_of_neg (by simp [hp])]
      have := (List.monotone_filter_right t h).length_le
      simpa using Nat.lt_succ_of_le this
    · by_cases hpa : p a = true
      · rw [List.filter_cons_of_pos (h a hpa), List.filter_cons_of_pos hpa]
        simpa using ih hmem
      · rw [List.filter_cons_of_neg (by simpa using hpa)]
        by_cases hqa : q a = true
        · rw [List.filter_cons_of_pos hqa]
          exact Nat.lt_succ_of_lt (ih hmem)
        · rw [List.filter_cons_of_neg (by simpa using hqa)]
          exact ih hmem

theorem mem_cellList (n r c : Nat) (hr : r < n) (hc : c < n) :
    (r, c) ∈ cellList n := by
  simp only [cellList, List.mem_flatMap, List.mem_map, List.mem_range]
  exact ⟨r, hr, c, hc, rfl⟩

theorem unknownCount_le_of (s2 s : Solver) (hsz : s2.size = s.size)
    (hsub : ∀ x y, s2.board x y = 0 → s.board x y = 0) :
    unknownCount s2 ≤ unknownCount s := by
  unfold unknownCount
  rw [hsz]
  exact (List.monotone_filter_right (cellList s.size)
    (fun p => by simpa using hsub p.1 p.2)).length_le

theorem unknownCount_lt_of (s2 s : Solver) (hsz : s2.size = s.size)
    (hsub : ∀ x y, s2.board x y = 0 → s.board x y = 0) (r c : Nat)
    (hr : r < s.size) (hc : c < s.size) (h0 : s.board r c = 0)
    (h2 : s2.board r c ≠ 0) : unknownCount s2 < unknownCount s := by
  unfold unknownCount
  rw [hsz]
  exact length_filter_lt (cellList s.size) _ _
    (fun p => by simpa using hsub p.1 p.2) (r, c) (mem_cellList s.size r c hr hc)
    (by simpa using h0) (by simpa using h2)

theorem sq_size (s : Solver) (r c : Nat) (re : Option String) (ty : String) :
    (s.setQueen r c re ty).1.size = s.size := by
  by_cases h1 : s.board r c = 1
  · simp [Solver.setQueen, h1]
  · by_cases h2 : s.board r c = -1
    · simp [Solver.setQueen, h1, h2]
    · have hmc := (mc_frame
        (rowMates (placedState s r c re ty).size r c ++
          colMates (placedState s r c re ty).size r c ++
          kingNeighbors (placedState s r c re ty).size r c ++
          regionMates (placedState s r c re ty) r c)
        (placedState s r c re ty) false).1
      rcases hco : (placedState s r c re ty).crossOutFromQueen r c
        with ⟨sco, res⟩
      have hsco : sco.size = s.size := by
        have : (placedState s r c re ty).crossOutFromQueen r c =
            (placedState s r c re ty).markCells _ false := rfl
        rw [this] at hco
        rw [hco] at hmc
        exact hmc
      cases res <;> simp [Solver.setQueen, h1, h2, placedState] at hco ⊢ <;>
        rw [hco] <;> exact hsco

theorem sq_zero_sub (s : Solver) (r c : Nat) (re : Option String)
    (ty : String) (x y : Nat) (h : (s.setQueen r c re ty).1.board x y = 0) :
    s.board x y = 0 := by
  by_cases h1 : s.board r c = 1
  · simpa [Solver.setQueen, h1] using h
  · by_cases h2 : s.board r c = -1
    · simpa [Solver.setQueen, h1, h2] using h
    · rcases hco : (placedState s r c re ty).crossOutFromQueen r c
        with ⟨sco, res⟩
      have hq : (s.setQueen r c re ty).1 = sco := by
        cases res <;>
          simp [Solver.setQueen, h1, h2, placedState] at hco ⊢ <;>
          rw [hco]
      rw [hq] at h
      have hmcsub : (placedState s r c re ty).board x y = 0 := by
        have : (placedState s r c re ty).crossOutFromQueen r c =
            (placedState s r c re ty).markCells _ false := rfl
        rw [this] at hco
        have := mc_board_zero_sub
          (rowMates (placedState s r c re ty).size r c ++
            colMates (placedState s r c re ty).size r c ++
            kingNeighbors (placedState s r c re ty).size r c ++
            regionMates (placedState s r c re ty) r c)
          (placedState s r c re ty) false x y
        rw [hco] at this
        exact this h
      by_cases hxy : x = r ∧ y = c
      · exfalso
        obtain ⟨hx, hy⟩ := hxy
        subst hx; subst hy
        rw [show (placedState s x y re ty).board x y = 1 from
          bupd_self s.board x y 1] at hmcsub
        cases hmcsub
      · rwa [show (placedState s r c re ty).board x y = s.board x y from
          bupd_other s.board r c 1 x y hxy] at hmcsub

theorem sq_unknown_lt (s : Solver) (r c : Nat) (re : Option String)
    (ty : String) (hr : r < s.size) (hc : c < s.size)
    (h0 : s.board r c = 0) :
    unknownCount (s.setQueen r c re ty).1 < unknownCount s := by
  have h1 : s.board r c ≠ 1 := by rw [h0]; decide
  have h2 : s.board r c ≠ -1 := by rw [h0]; decide
  apply unknownCount_lt_of _ _ (sq_size s r c re ty)
    (fun x y => sq_zero_sub s r c re ty x y) r c hr hc h0
  intro hzero
  have hone : (s.setQueen r c re ty).1.board r c = 1 := by
    rcases hco : (placedState s r c re ty).crossOutFromQueen r c
      with ⟨sco, res⟩
    have hq : (s.setQueen r c re ty).1 = sco := by
      cases res <;>
        simp [Solver.setQueen, h1, h2, placedState] at hco ⊢ <;>
        rw [hco]
    rw [hq]
    have : (placedState s r c re ty).crossOutFromQueen r c =
        (placedState s r c re ty).markCells _ false := rfl
    rw [this] at hco
    have := mc_board_one_preserved
      (rowMates (placedState s r c re ty).size r c ++
        colMates (placedState s r c re ty).size r c ++
        kingNeighbors (placedState s r c re ty).size r c ++
        regionMates (placedState s r c re ty) r c)
      (placedState s r c re ty) false r c (bupd_self s.board r c 1)
    rw [hco] at this
    exact this
  rw [hone] at hzero
  cases hzero

theorem hsp_sub (idxs : List Nat)
    (infoF : Solver → Nat → Nat × List (Nat × Nat)) (reason ty : String) :
    ∀ (s : Solver) (ch : Bool),
    (s.hiddenSinglesPass idxs infoF reason ty ch).1.size = s.size ∧
    (∀ x y, (s.hiddenSinglesPass idxs infoF reason ty ch).1.board x y = 0 →
      s.board x y = 0) := by
  induction idxs with
  | nil => intro s ch; simp [Solver.hiddenSinglesPass]
  | cons i rest ih =>
    intro s ch
    rw [Solver.hiddenSinglesPass]
    by_cases hc1 : (infoF s i).1 > 1
    · simp only [if_pos hc1]
      exact ⟨by simp, by intro x y h; simpa using h⟩
    · simp only [if_neg hc1]
      by_cases hc2 : (infoF s i).1 = 0 ∧ (infoF s i).2.length = 0
      · simp only [if_pos hc2]
        exact ⟨by simp, by intro x y h; simpa using h⟩
      · simp only [if_neg hc2]
        by_cases hc3 : (infoF s i).1 = 0 ∧ (infoF s i).2.length = 1
        · simp only [if_pos hc3]
          rcases hsq : s.setQueen ((infoF s i).2.headD (0, 0)).1
            ((infoF s i).2.headD (0, 0)).2 (some reason) ty with ⟨s1, res⟩
          have hsz := sq_size s ((infoF s i).2.headD (0, 0)).1
            ((infoF s i).2.headD (0, 0)).2 (some reason) ty
          have hzs := sq_zero_sub s ((infoF s i).2.headD (0, 0)).1
            ((infoF s i).2.headD (0, 0)).2 (some reason) ty
          rw [hsq] at hsz hzs
          cases res with
          | contra => exact ⟨hsz, fun x y h => hzs x y h⟩
          | ok b =>
            have := ih s1 true
            exact ⟨this.1.trans hsz,
              fun x y h => hzs x y (this.2 x y h)⟩
        · simp only [if_neg hc3]
          exact ih s ch

theorem phs_sub (s : Solver) :
    s.placeHiddenSingles.1.size = s.size ∧
    (∀ x y, s.placeHiddenSingles.1.board x y = 0 → s.board x y = 0) := by
  rcases h1 : s.hiddenSinglesPass (List.range s.size) Solver.rowInfo
      reasonOnlyRow placeQueenRowType false with ⟨s1, r1⟩
  have p1 := hsp_sub (List.range s.size) Solver.rowInfo reasonOnlyRow
    placeQueenRowType s false
  rw [h1] at p1
  rw [Solver.placeHiddenSingles, h1]
  cases r1 with
  | contra => exact p1
  | ok b1 =>
    dsimp only
    rcases h2 : s1.hiddenSinglesPass (List.range s1.size) Solver.colInfo
        reasonOnlyCol placeQueenColType b1 with ⟨s2, r2⟩
    have p2 := hsp_sub (List.range s1.size) Solver.colInfo reasonOnlyCol
      placeQueenColType s1 b1
    rw [h2] at p2
    cases r2 with
    | contra =>
      dsimp only
      exact ⟨p2.1.trans p1.1, fun x y h => p1.2 x y (p2.2 x y h)⟩
    | ok b2 =>
      dsimp only
      have p3 := hsp_sub (List.range s2.size) Solver.regionInfo
        reasonOnlyRegion placeQueenRegionType s2 b2
      exact ⟨(p3.1.trans p2.1).trans p1.1,
        fun x y h => p1.2 x y (p2.2 x y (p3.2 x y h))⟩

theorem pl_sub (rid : Nat) (idxs : List Nat) (pick : Nat → Nat × Nat)
    (reason : String) : ∀ (s : Solver) (ch : Bool),
    (s.pointingLine rid idxs pick reason ch).1.size = s.size ∧
    (∀ x y, (s.pointingLine rid idxs pick reason ch).1.board x y = 0 →
      s.board x y = 0) := by
  induction idxs with
  | nil => intro s ch; simp [Solver.pointingLine]
  | cons i rest ih =>
    intro s ch
    rw [Solver.pointingLine]
    try dsimp only
    by_cases hc1 : s.regions (pick i).1 (pick i).2 = (rid : Int)
    · simp only [if_pos hc1]
      exact ih s ch
    · simp only [if_neg hc1]
      cases hcand : s.isCandidate (pick i).1 (pick i).2 with
      | false =>
        rw [if_pos (by simp [hcand])]
        exact ih s ch
      | true =>
        rw [if_neg (by simp [hcand])]
        rcases hsi : s.setImpossible (pick i).1 (pick i).2 (some reason)
            pointingEliminationType with ⟨s1, res⟩
        have hsz := si_size s (pick i).1 (pick i).2 (some reason)
          pointingEliminationType
        have hzs := si_board_zero_sub s (pick i).1 (pick i).2 (some reason)
          pointingEliminationType
        rw [hsi] at hsz hzs
        cases res with
        | contra => exact ⟨hsz, fun x y h => hzs x y h⟩
        | ok b =>
          have := ih s1 (ch || b)
          exact ⟨this.1.trans hsz, fun x y h => hzs x y (this.2 x y h)⟩

theorem pfr_sub (s : Solver) (rid : Nat) (ch : Bool) :
    (s.pointingForRegion rid ch).1.size = s.size ∧
    (∀ x y, (s.pointingForRegion rid ch).1.board x y = 0 →
      s.board x y = 0) := by
  rw [Solver.pointingForRegion]
  try dsimp only
  generalize (List.filter
    (fun p => decide (s.regions p.1 p.2 = (rid : Int)) &&
      decide (s.board p.1 p.2 = 0)) (cellList s.size)) = rc
  by_cases hempty : rc.length = 0
  · simp only [if_pos hempty]
    exact ⟨by simp, by intro x y h; simpa using h⟩
  · simp only [if_neg hempty]
    rcases hrow : (if (rc.map (fun p => p.1)).dedup.length = 1 then
        s.pointingLine rid (List.range s.size)
          (fun c => ((rc.headD (0, 0)).1, c)) reasonPointingRow ch
      else (s, .ok ch)) with ⟨s1, r1⟩
    have p1 : s1.size = s.size ∧
        (∀ x y, s1.board x y = 0 → s.board x y = 0) := by
      by_cases hc : (rc.map (fun p => p.1)).dedup.length = 1
      · rw [if_pos hc] at hrow
        have := pl_sub rid (List.range s.size)
          (fun c => ((rc.headD (0, 0)).1, c)) reasonPointingRow s ch
        rw [hrow] at this
        exact this
      · rw [if_neg hc] at hrow
        cases hrow
        exact ⟨rfl, fun x y h => h⟩
    cases r1 with
    | contra => exact p1
    | ok b1 =>
      try dsimp only
      by_cases hc2 : (rc.map (fun p => p.2)).dedup.length = 1
      · simp only [if_pos hc2]
        have := pl_sub rid (List.range s1.size)
          (fun r => (r, (rc.headD (0, 0)).2)) reasonPointingCol s1 b1
        exact ⟨this.1.trans p1.1,
          fun x y h => p1.2 x y (this.2 x y h)⟩
      · simp only [if_neg hc2]
        exact p1

theorem pp_sub (rids : List Nat) : ∀ (s : Solver) (ch : Bool),
    (s.pointingPass rids ch).1.size = s.size ∧
    (∀ x y, (s.pointingPass rids ch).1.board x y = 0 → s.board x y = 0) := by
  induction rids with
  | nil => intro s ch; simp [Solver.pointingPass]
  | cons rid rest ih =>
    intro s ch
    rw [Solver.pointingPass]
    rcases h1 : s.pointingForRegion rid ch with ⟨s1, r1⟩
    have p1 := pfr_sub s rid ch
    rw [h1] at p1
    cases r1 with
    | contra => exact p1
    | ok b1 =>
      have := ih s1 b1
      exact ⟨this.1.trans p1.1, fun x y h => p1.2 x y (this.2 x y h)⟩

theorem co_sub (s : Solver) (r c : Nat) :
    (s.crossOutFromQueen r c).1.size = s.size ∧
    (∀ x y, (s.crossOutFromQueen r c).1.board x y = 0 →
      s.board x y = 0) := by
  have h1 := (mc_frame (rowMates s.size r c ++ colMates s.size r c ++
    kingNeighbors s.size r c ++ regionMates s r c) s false).1
  have h2 := mc_board_zero_sub (rowMates s.size r c ++ colMates s.size r c ++
    kingNeighbors s.size r c ++ regionMates s r c) s false
  exact ⟨h1, h2⟩

theorem cqp_sub (cells : List (Nat × Nat)) : ∀ (s : Solver) (ch : Bool),
    (s.crossQueensPass cells ch).1.size = s.size ∧
    (∀ x y, (s.crossQueensPass cells ch).1.board x y = 0 →
      s.board x y = 0) := by
  induction cells with
  | nil => intro s ch; simp [Solver.crossQueensPass]
  | cons p rest ih =>
    intro s ch
    rw [Solver.crossQueensPass]
    by_cases hq : s.board p.1 p.2 = 1
    · simp only [if_pos hq]
      rcases hco : s.crossOutFromQueen p.1 p.2 with ⟨s1, r1⟩
      have p1 := co_sub s p.1 p.2
      rw [hco] at p1
      cases r1 with
      | contra => exact p1
      | ok b =>
        have := ih s1 (ch || b)
        exact ⟨this.1.trans p1.1, fun x y h => p1.2 x y (this.2 x y h)⟩
    · simp only [if_neg hq]
      exact ih s ch

theorem ace_sub (s : Solver) :
    s.applyCoreEliminations.1.size = s.size ∧
    (∀ x y, s.applyCoreEliminations.1.board x y = 0 → s.board x y = 0) := by
  rcases h1 : s.crossQueensPass (cellList s.size) false with ⟨s1, r1⟩
  have p1 := cqp_sub (cellList s.size) s false
  rw [h1] at p1
  rw [Solver.applyCoreEliminations, h1]
  cases r1 with
  | contra => exact p1
  | ok b1 =>
    dsimp only
    rcases h2 : s1.placeHiddenSingles with ⟨s2, r2⟩
    have p2 := phs_sub s1
    rw [h2] at p2
    cases r2 with
    | contra =>
      dsimp only
      exact ⟨p2.1.trans p1.1, fun x y h => p1.2 x y (p2.2 x y h)⟩
    | ok b2 =>
      dsimp only
      rcases h3 : s2.applyPointingEliminations with ⟨s3, r3⟩
      have p3 : s3.size = s2.size ∧
          (∀ x y, s3.board x y = 0 → s2.board x y = 0) := by
        have := pp_sub (List.range s2.size) s2 false
        rw [show s2.applyPointingEliminations =
          s2.pointingPass (List.range s2.size) false from rfl] at h3
        rw [h3] at this
        exact this
      cases r3 with
      | contra =>
        dsimp only
        exact ⟨(p3.1.trans p2.1).trans p1.1,
          fun x y h => p1.2 x y (p2.2 x y (p3.2 x y h))⟩
      | ok b3 =>
        dsimp only
        exact ⟨(p3.1.trans p2.1).trans p1.1,
          fun x y h => p1.2 x y (p2.2 x y (p3.2 x y h))⟩

theorem nlf_sub (nested : Solver → Solver × Bool) (sl : Option Nat) :
    ∀ (cells : List (Nat × Nat)) (s : Solver) (ch : Bool),
    (nishioLoopF nested sl s ch cells).1.size = s.size ∧
    (∀ x y, (nishioLoopF nested sl s ch cells).1.board x y = 0 →
      s.board x y = 0) := by
  intro cells
  induction cells with
  | nil => intro s ch; exact ⟨rfl, fun x y h => h⟩
  | cons p rest ih =>
    intro s ch
    rcases p with ⟨r, c⟩
    rw [nishioLoopF]
    cases hcand : s.isCandidate r c with
    | false =>
      rw [if_neg (by simp [hcand])]
      exact ih s ch
    | true =>
      rw [if_pos (by simp [hcand])]
      try dsimp only
      rcases hsq : s.clone.setQueen r c none placeQueenType with ⟨t1, sqres⟩
      cases sqres with
      | contra =>
        rcases hsi : s.setImpossible r c (some reasonNishioImmediate)
            nishioEliminationType with ⟨s1, sires⟩
        have hsz := si_size s r c (some reasonNishioImmediate)
          nishioEliminationType
        have hzs := si_board_zero_sub s r c (some reasonNishioImmediate)
          nishioEliminationType
        rw [hsi] at hsz hzs
        cases sires with
        | contra => exact ⟨hsz, fun x y h => hzs x y h⟩
        | ok b2 =>
          try dsimp only
          cases hlim : (jsTruthy sl &&
              decide (jsVal sl ≤ s1.steps.length)) with
          | true =>
            rw [if_pos (by simp [hlim])]
            exact ⟨hsz, fun x y h => hzs x y h⟩
          | false =>
            rw [if_neg (by simp [hlim])]
            have := ih s1 (ch || b2)
            exact ⟨this.1.trans hsz, fun x y h => hzs x y (this.2 x y h)⟩
      | ok b =>
        try dsimp only
        rcases hfix : nested t1 with ⟨t2, res2⟩
        cases hres : (res2 || !t2.isConsistent) with
        | true =>
          rw [if_pos (by simp [hres])]
          rcases hsi : s.setImpossible r c (some reasonNishioDeep)
              nishioEliminationType with ⟨s1, sires⟩
          have hsz := si_size s r c (some reasonNishioDeep)
            nishioEliminationType
          have hzs := si_board_zero_sub s r c (some reasonNishioDeep)
            nishioEliminationType
          rw [hsi] at hsz hzs
          cases sires with
          | contra => exact ⟨hsz, fun x y h => hzs x y h⟩
          | ok b2 =>
            try dsimp only
            cases hlim : (jsTruthy sl &&
                decide (jsVal sl ≤ s1.steps.length)) with
            | true =>
              rw [if_pos (by simp [hlim])]
              exact ⟨hsz, fun x y h => hzs x y h⟩
            | false =>
              rw [if_neg (by simp [hlim])]
              have := ih s1 (ch || b2)
              exact ⟨this.1.trans hsz,
                fun x y h => hzs x y (this.2 x y h)⟩
        | false =>
          rw [if_neg (by simp [hres])]
          exact ih s ch

theorem nd_sub (sl : Option Nat) (nfuel : Nat) (s : Solver) :
    (nishioDepth sl nfuel s).1.size = s.size ∧
    (∀ x y, (nishioDepth sl nfuel s).1.board x y = 0 →
      s.board x y = 0) := by
  cases nfuel with
  | zero => exact ⟨rfl, fun x y h => h⟩
  | succ d =>
    rw [nishioDepth]
    exact nlf_sub _ sl (cellList s.size) s false

theorem mem_cellList_bounds (n : Nat) (p : Nat × Nat)
    (h : p ∈ cellList n) : p.1 < n ∧ p.2 < n := by
  simp only [cellList, List.mem_flatMap, List.mem_map, List.mem_range] at h
  obtain ⟨r, hr, c, hc, rfl⟩ := h
  exact ⟨hr, hc⟩

theorem clone_unknown (s : Solver) : unknownCount s.clone = unknownCount s :=
  rfl

theorem solveFix_depth_irrelevant_aux : ∀ k : Nat,
    (∀ n m sl s, n + m ≤ k → unknownCount s < n → unknownCount s < m →
      nishioDepth sl n s = nishioDepth sl m s) ∧
    (∀ n m sl a rem s, n + m ≤ k → unknownCount s < n → unknownCount s < m →
      solveFixAux (nishioDepth sl n) a sl rem s =
        solveFixAux (nishioDepth sl m) a sl rem s) := by
  intro k
  induction k using Nat.strong_induction_on with
  | _ k IH =>
  have partB : ∀ n m sl s, n + m ≤ k → unknownCount s < n →
      unknownCount s < m → nishioDepth sl n s = nishioDepth sl m s := by
    intro n m sl s hk hn hm
    rcases n with _ | d
    · omega
    rcases m with _ | e
    · omega
    rw [nishioDepth, nishioDepth]
    have cong : ∀ cells s1 ch, unknownCount s1 ≤ unknownCount s →
        s1.size = s.size →
        (∀ p, p ∈ cells → p.1 < s.size ∧ p.2 < s.size) →
        nishioLoopF (fun t1 =>
            solveFixAux (nishioDepth (some (jsOr sl 200)) d) true
              (some (jsOr sl 200)) (capOf (some (jsOr sl 200))) t1)
          sl s1 ch cells =
        nishioLoopF (fun t1 =>
            solveFixAux (nishioDepth (some (jsOr sl 200)) e) true
              (some (jsOr sl 200)) (capOf (some (jsOr sl 200))) t1)
          sl s1 ch cells := by
      intro cells
      induction cells with
      | nil => intro s1 ch hu hsz hb; rfl
      | cons p rest ihc =>
        intro s1 ch hu hsz hb
        rcases p with ⟨r, c⟩
        have hrc := hb (r, c) (List.mem_cons_self _ _)
        rw [nishioLoopF, nishioLoopF]
        cases hcand : s1.isCandidate r c with
        | false =>
          have hc1 : ¬(false = true) := by simp
          rw [if_neg hc1, if_neg hc1]
          exact ihc s1 ch hu hsz
            (fun q hq => hb q (List.mem_cons_of_mem _ hq))
        | true =>
          rw [if_pos rfl, if_pos rfl]
          try dsimp only
          rcases hsq : s1.clone.setQueen r c none placeQueenType
            with ⟨t1, sqres⟩
          cases sqres with
          | contra =>
            rcases hsi : s1.setImpossible r c (some reasonNishioImmediate)
                nishioEliminationType with ⟨s2, sires⟩
            have hsz2 := si_size s1 r c (some reasonNishioImmediate)
              nishioEliminationType
            have hzs2 := si_board_zero_sub s1 r c (some reasonNishioImmediate)
              nishioEliminationType
            rw [hsi] at hsz2 hzs2
            cases sires with
            | contra => rfl
            | ok b2 =>
              try dsimp only
              cases hlim : (jsTruthy sl &&
                  decide (jsVal sl ≤ s2.steps.length)) with
              | true => rw [if_pos rfl, if_pos rfl]
              | false =>
                have hl1 : ¬(false = true) := by simp
                rw [if_neg hl1, if_neg hl1]
                exact ihc s2 (ch || b2)
                  (le_trans (unknownCount_le_of s2 s1 hsz2 hzs2) hu)
                  (hsz2.trans hsz)
                  (fun q hq => hb q (List.mem_cons_of_mem _ hq))
          | ok b =>
            try dsimp only
            have ht1 : unknownCount t1 < unknownCount s1 := by
              have hcl : s1.clone.board r c = 0 := by
                have : s1.isCandidate r c = true := hcand
                simpa [Solver.isCandidate, Solver.clone] using this
              have := sq_unknown_lt s1.clone r c none placeQueenType
                (by rw [show s1.clone.size = s1.size from rfl, hsz]
                    exact hrc.1)
                (by rw [show s1.clone.size = s1.size from rfl, hsz]
                    exact hrc.2) hcl
              rw [hsq] at this
              simpa [clone_unknown] using this
            have hnested : solveFixAux (nishioDepth (some (jsOr sl 200)) d)
                true (some (jsOr sl 200)) (capOf (some (jsOr sl 200))) t1 =
                solveFixAux (nishioDepth (some (jsOr sl 200)) e)
                true (some (jsOr sl 200)) (capOf (some (jsOr sl 200))) t1 := by
              have hde : d + e < k := by omega
              exact (IH (d + e) hde).2 d e (some (jsOr sl 200)) true
                (capOf (some (jsOr sl 200))) t1 (le_refl _)
                (by omega) (by omega)
            rw [hnested]
            rcases hfix : solveFixAux (nishioDepth (some (jsOr sl 200)) e)
                true (some (jsOr sl 200)) (capOf (some (jsOr sl 200))) t1
              with ⟨t2, res2⟩
            cases hres : (res2 || !t2.isConsistent) with
            | true =>
              rw [if_pos rfl, if_pos rfl]
              rcases hsi : s1.setImpossible r c (some reasonNishioDeep)
                  nishioEliminationType with ⟨s2, sires⟩
              have hsz2 := si_size s1 r c (some reasonNishioDeep)
                nishioEliminationType
              have hzs2 := si_board_zero_sub s1 r c (some reasonNishioDeep)
                nishioEliminationType
              rw [hsi] at hsz2 hzs2
              cases sires with
              | contra => rfl
              | ok b2 =>
                try dsimp only
                cases hlim : (jsTruthy sl &&
                    decide (jsVal sl ≤ s2.steps.length)) with
                | true =>
                  rw [if_pos rfl, if_pos rfl]
                | false =>
                  have hl2 : ¬(false = true) := by simp
                  rw [if_neg hl2, if_neg hl2]
                  exact ihc s2 (ch || b2)
                    (le_trans (unknownCount_le_of s2 s1 hsz2 hzs2) hu)
                    (hsz2.trans hsz)
                    (fun q hq => hb q (List.mem_cons_of_mem _ hq))
            | false =>
              have hr1 : ¬(false = true) := by simp
              rw [if_neg hr1, if_neg hr1]
              exact ihc s1 ch hu hsz
                (fun q hq => hb q (List.mem_cons_of_mem _ hq))
    exact cong (cellList s.size) s (false) (le_refl _) rfl
      (fun p hp => mem_cellList_bounds s.size p hp)
  have partA : ∀ n m sl a rem s, n + m ≤ k → unknownCount s < n →
      unknownCount s < m →
      solveFixAux (nishioDepth sl n) a sl rem s =
        solveFixAux (nishioDepth sl m) a sl rem s := by
    intro n m sl a rem
    induction rem with
    | zero => intro s hk hn hm; rfl
    | succ rem ihr =>
      intro s hk hn hm
      rw [solveFixAux, solveFixAux]
      rcases hace : s.applyCoreEliminations with ⟨s1, res1⟩
      have hace1 := ace_sub s
      rw [hace] at hace1
      have hu1 : unknownCount s1 ≤ unknownCount s :=
        unknownCount_le_of s1 s hace1.1 hace1.2
      cases res1 with
      | contra => rfl
      | ok elimChanged =>
        try dsimp only
        cases hlim : (jsTruthy sl && decide (jsVal sl ≤ s1.steps.length)) with
        | true => rw [if_pos rfl, if_pos rfl]
        | false =>
          have hl1 : ¬(false = true) := by simp
          rw [if_neg hl1, if_neg hl1]
          cases hsolved : s1.isSolved with
          | true => rw [if_pos rfl, if_pos rfl]
          | false =>
            have hs1 : ¬(false = true) := by simp
            rw [if_neg hs1, if_neg hs1]
            cases elimChanged with
            | true =>
              rw [if_pos rfl, if_pos rfl]
              exact ihr s1 hk (by omega) (by omega)
            | false =>
              have hf : ¬((false : Bool) = true) := by simp
              rw [if_neg hf, if_neg hf]
              cases a with
              | false =>
                have hf2 : ¬((false : Bool) = true) := by simp
                rw [if_neg hf2, if_neg hf2]
              | true =>
                rw [if_pos rfl, if_pos rfl]
                have hB : nishioDepth sl n s1 = nishioDepth sl m s1 :=
                  partB n m sl s1 hk (by omega) (by omega)
                rw [hB]
                rcases hnd : nishioDepth sl m s1 with ⟨s2, res2⟩
                have hnd1 := nd_sub sl m s1
                rw [hnd] at hnd1
                have hu2 : unknownCount s2 ≤ unknownCount s1 :=
                  unknownCount_le_of s2 s1 hnd1.1 hnd1.2
                cases res2 with
                | contra => rfl
                | ok nishioChanged =>
                  try dsimp only
                  cases hlim2 : (jsTruthy sl &&
                      decide (jsVal sl ≤ s2.steps.length)) with
                  | true =>
                    rw [if_pos rfl, if_pos rfl]
                  | false =>
                    have hl3 : ¬(false = true) := by simp
                    rw [if_neg hl3, if_neg hl3]
                    cases nishioChanged with
                    | true =>
                      rw [if_pos rfl, if_pos rfl]
                      exact ihr s2 hk (by omega) (by omega)
                    | false =>
                      have hf3 : ¬((false : Bool) = true) := by simp
                      rw [if_neg hf3, if_neg hf3]
  exact ⟨partB, partA⟩

/-- Any two sufficiently large hypothesis-nesting depths give
`solveToFixedPoint` the same result: the source's depth-unbounded
recursion is well defined, its nesting depth being bounded by the
number of Unknown cells. -/
theorem solveFix_depth_irrelevant (n m : Nat) (sl : Option Nat)
    (a : Bool) (rem : Nat) (s : Solver) (hn : unknownCount s < n)
    (hm : unknownCount s < m) :
    solveFixAux (nishioDepth sl n) a sl rem s =
      solveFixAux (nishioDepth sl m) a sl rem s :=
  (solveFix_depth_irrelevant_aux (n + m)).2 n m sl a rem s (le_refl _) hn hm

/-- C6: `solveToFixedPoint` terminates for every starting state and
option combination: its loop is bounded by `cap = max(400, 2 *
stepLimit)` iterations when a (truthy) step limit is supplied and 800
otherwise (first conjunct: the entry point runs the loop with exactly
that bound); when the iteration budget is exhausted without solving,
the loop returns a contradiction result (second conjunct); and the
hypothesis-nesting depth is genuinely bounded, any depth beyond the
number of Unknown cells giving the same result (third conjunct), which
is the termination argument for the recursion of the source. -/
theorem claim_C6_fixed_point_cap (s : Solver) (allowNishio : Bool)
    (stepLimit : Option Nat) :
    (s.solveToFixedPoint allowNishio stepLimit =
      solveFixAux (nishioDepth stepLimit (unknownCount s + 1)) allowNishio
        stepLimit
        (if jsTruthy stepLimit then max 400 (jsVal stepLimit * 2) else 800)
        s) ∧
    (∀ (att : Solver → Solver × OpRes) (a : Bool) (sl : Option Nat)
      (s2 : Solver), solveFixAux att a sl 0 s2 = (s2, true)) ∧
    (∀ n m, unknownCount s < n → unknownCount s < m →
      solveFixAux (nishioDepth stepLimit n) allowNishio stepLimit
        (capOf stepLimit) s =
      solveFixAux (nishioDepth stepLimit m) allowNishio stepLimit
        (capOf stepLimit) s) :=
  ⟨rfl, fun _ _ _ _ => rfl, fun n m hn hm =>
    solveFix_depth_irrelevant n m stepLimit allowNishio (capOf stepLimit)
      s hn hm⟩

theorem claim_C6_witness :
    (freshSolver.solveToFixedPoint true none =
      solveFixAux (nishioDepth none (unknownCount freshSolver + 1)) true none
        (if jsTruthy none then max 400 (jsVal none * 2) else 800)
        freshSolver) ∧
    solveFixAux (nishioDepth none 5) true none 0 freshSolver =
      (freshSolver, true) ∧
    unknownCount freshSolver < 5 ∧ unknownCount freshSolver < 6 ∧
    solveFixAux (nishioDepth none 5) true none (capOf none) freshSolver =
      solveFixAux (nishioDepth none 6) true none (capOf none) freshSolver := by
  have h := claim_C6_fixed_point_cap freshSolver true none
  exact ⟨h.1, h.2.1 (nishioDepth none 5) true none freshSolver,
    by decide, by decide, h.2.2 5 6 (by decide) (by decide)⟩

/-- C1: `solveLogically` reports `solved: true` exactly when the
fixed-point solve reported no contradiction, the resulting board has
one queen in every row, column and region (`isSolved`), and the queen
positions coincide with the target solution
(`matchesTargetSolution`); in every other case it reports
`solved: false`; the resulting solver state is that of the fixed-point
solve. -/
theorem claim_C1_solveLogically (s : Solver) (allowNishio : Bool)
    (stepLimit : Option Nat) :
    (s.solveLogically allowNishio stepLimit).1 =
      (s.solveToFixedPoint allowNishio stepLimit).1 ∧
    (s.solveLogically allowNishio stepLimit).2.solved =
      (!(s.solveToFixedPoint allowNishio stepLimit).2 &&
        ((s.solveToFixedPoint allowNishio stepLimit).1.isSolved &&
          (s.solveToFixedPoint allowNishio stepLimit).1.matchesTargetSolution)) := by
  rw [Solver.solveLogically]
  rcases h : s.solveToFixedPoint allowNishio stepLimit with ⟨s1, contra⟩
  cases contra with
  | true => simp
  | false =>
    cases h2 : s1.isSolved with
    | false => simp [h2]
    | true =>
      cases h3 : s1.matchesTargetSolution with
      | false => simp [h2, h3]
      | true => simp [h2, h3]

theorem adj4_symm {p q : Nat × Nat} (h : adj4 p q) : adj4 q p := by
  unfold adj4 at *
  rcases h with ⟨h1, h2⟩ | ⟨h1, h2⟩
  · exact Or.inl ⟨h1.symm, h2.symm⟩
  · exact Or.inr ⟨h1.symm, h2.symm⟩

theorem kingAdjacent_symm {p q : Nat × Nat} (h : kingAdjacent p q) :
    kingAdjacent q p :=
  ⟨h.1.symm, h.2.2.1, h.2.1, h.2.2.2.2, h.2.2.2.1⟩

theorem cellList_nodup (n : Nat) : (cellList n).Nodup := by
  unfold cellList
  rw [List.nodup_flatMap]
  constructor
  · intro r _
    exact (List.nodup_range n).map (fun a b hab => congrArg Prod.snd hab)
  · have hlt : (List.range n).Pairwise (· < ·) := List.pairwise_lt_range n
    refine hlt.imp ?_
    intro r1 r2 hr12 x hx1 hx2
    simp only [List.mem_map, List.mem_range] at hx1 hx2
    obtain ⟨c1, _, rfl⟩ := hx1
    obtain ⟨c2, _, he⟩ := hx2
    exact absurd (congrArg Prod.fst he).symm (Nat.ne_of_lt hr12)

theorem length_filter_eq_one {α : Type} {l : List α} {p : α → Bool} (a : α)
    (hnd : l.Nodup) (ha : a ∈ l) (hpa : p a = true)
    (huniq : ∀ b, b ∈ l → p b = true → b = a) :
    (l.filter p).length = 1 := by
  have hmem : a ∈ l.filter p := List.mem_filter.2 ⟨ha, hpa⟩
  have hall : ∀ b ∈ l.filter p, b = a := fun b hb =>
    huniq b (List.mem_filter.1 hb).1 (List.mem_filter.1 hb).2
  have hnd2 : (l.filter p).Nodup := hnd.filter p
  rcases hfp : l.filter p with _ | ⟨x, t⟩
  · rw [hfp] at hmem
    cases hmem
  · rw [hfp] at hmem hall hnd2
    rcases t with _ | ⟨y, t2⟩
    · rfl
    · have hx : x = a := hall x (by simp)
      have hy : y = a := hall y (by simp)
      rw [List.nodup_cons] at hnd2
      exact absurd (by simp [hx, hy]) hnd2.1

theorem sgInv_final {n : Nat} {regions : Nat → Nat → Int} {st : SGState}
    (h : SGInv n regions st n) :
    validWitnessSolution n regions st.solution := by
  have hex : ∀ r : Fin n, ∃ c, c < n ∧ st.solution r.1 c = 1 :=
    fun r => h.rowFull r.1 r.2
  choose f hf1 hf2 using hex
  have hcolne : ∀ r1 r2 : Fin n, r1 ≠ r2 → f r1 ≠ f r2 := by
    intro r1 r2 hne heq
    have hcell : ((r1 : Nat), f r1) ≠ ((r2 : Nat), f r2) := by
      intro hp
      exact hne (Fin.ext (congrArg Prod.fst hp))
    exact (h.distinct r1 (f r1) r2 (f r2) (hf2 r1) (hf2 r2) hcell).1 heq
  have hg : Function.Injective
      (fun r : Fin n => (⟨f r, hf1 r⟩ : Fin n)) := by
    intro r1 r2 heq
    by_contra hne
    exact hcolne r1 r2 hne (congrArg Fin.val heq)
  have hsurj := Finite.injective_iff_surjective.mp hg
  refine ⟨?_, ?_, ?_, ?_⟩
  · intro r hr
    unfold queensInRow
    refine length_filter_eq_one (f ⟨r, hr⟩) (List.nodup_range n)
      (List.mem_range.2 (hf1 ⟨r, hr⟩)) (by simp [hf2 ⟨r, hr⟩]) ?_
    intro b _ hpb
    have hq : st.solution r b = 1 := by simpa using hpb
    exact h.rowUniq r b (f ⟨r, hr⟩) hq (hf2 ⟨r, hr⟩)
  · intro c hc
    obtain ⟨r, hr⟩ := hsurj ⟨c, hc⟩
    have hfc : f r = c := congrArg Fin.val hr
    have hqr : st.solution r.1 c = 1 := hfc ▸ hf2 r
    unfold queensInCol
    refine length_filter_eq_one (r : Nat) (List.nodup_range n)
      (List.mem_range.2 r.2) (by simp [hqr]) ?_
    intro b _ hpb
    have hqb : st.solution b c = 1 := by simpa using hpb
    by_contra hbne
    have hcell : (b, c) ≠ ((r : Nat), c) := by
      intro hp
      exact hbne (congrArg Prod.fst hp)
    exact (h.distinct b c r.1 c hqb hqr hcell).1 rfl
  · rintro ⟨p1, p2⟩ ⟨q1, q2⟩ _ _ hsp hsq hne
    have hd := h.distinct p1 p2 q1 q2 hsp hsq hne
    exact ⟨hd.2.1, hd.2.2⟩
  · intro hwf id hid
    have hregion : ∀ r : Fin n,
        0 ≤ regions r.1 (f r) ∧ regions r.1 (f r) < (n : Int) :=
      fun r => hwf r.1 (f r) r.2 (hf1 r)
    have hk : Function.Injective (fun r : Fin n =>
        (⟨(regions r.1 (f r)).toNat,
          by have := hregion r; omega⟩ : Fin n)) := by
      intro r1 r2 heq
      have hv : regions r1.1 (f r1) = regions r2.1 (f r2) := by
        have hb1 := hregion r1
        have hb2 := hregion r2
        have hval := congrArg Fin.val heq
        simp only at hval
        omega
      by_contra hne
      have hcell : ((r1 : Nat), f r1) ≠ ((r2 : Nat), f r2) := by
        intro hp
        exact hne (Fin.ext (congrArg Prod.fst hp))
      exact (h.distinct r1.1 (f r1) r2.1 (f r2) (hf2 r1) (hf2 r2)
        hcell).2.1 hv
    obtain ⟨r, hr⟩ := Finite.injective_iff_surjective.mp hk ⟨id, hid⟩
    have hrid : regions r.1 (f r) = (id : Int) := by
      have hb := hregion r
      have hval := congrArg Fin.val hr
      simp only at hval
      omega
    unfold queensInRegion
    refine length_filter_eq_one ((r : Nat), f r) (cellList_nodup n)
      (mem_cellList n r.1 (f r) r.2 (hf1 r)) (by simp [hrid, hf2 r]) ?_
    rintro ⟨b1, b2⟩ _ hpb
    have hpb2 : regions b1 b2 = (id : Int) ∧ st.solution b1 b2 = 1 := by
      simpa using hpb
    by_contra hbne
    have hcell : (b1, b2) ≠ ((r : Nat), f r) := fun hp => hbne hp
    exact (h.distinct b1 b2 r.1 (f r) hpb2.2 (hf2 r) hcell).2.1
      (hpb2.1.trans hrid.symm)

theorem sg_valid_facts {st : SGState} {row col : Nat}
    (h : st.isValidPlacement row col = true) :
    col ∉ st.usedCols ∧ st.regions row col ∉ st.usedRegions ∧
    ∀ r2 c2, r2 < st.size → c2 < st.size → st.solution r2 c2 = 1 →
      ¬kingAdjacent (row, col) (r2, c2) := by
  unfold SGState.isValidPlacement at h
  by_cases h1 : col ∈ st.usedCols
  · rw [if_pos h1] at h
    cases h
  rw [if_neg h1] at h
  by_cases h2 : st.regions row col ∈ st.usedRegions
  · rw [if_pos h2] at h
    cases h
  rw [if_neg h2] at h
  refine ⟨h1, h2, ?_⟩
  intro r2 c2 hr2 hc2 hq hk
  rw [Bool.not_eq_true', List.any_eq_false] at h
  obtain ⟨hne, hb1, hb2, hb3, hb4⟩ := hk
  simp only at hb1 hb2 hb3 hb4
  obtain ⟨dr, hdrmem, hdr_eq⟩ :
      ∃ dr ∈ ([-1, 0, 1] : List Int), (row : Int) + dr = (r2 : Int) := by
    have h5 : (r2 : Int) - row = -1 ∨ (r2 : Int) - row = 0 ∨
        (r2 : Int) - row = 1 := by omega
    rcases h5 with h5 | h5 | h5
    · exact ⟨-1, by simp, by omega⟩
    · exact ⟨0, by simp, by omega⟩
    · exact ⟨1, by simp, by omega⟩
  obtain ⟨dc, hdcmem, hdc_eq⟩ :
      ∃ dc ∈ ([-1, 0, 1] : List Int), (col : Int) + dc = (c2 : Int) := by
    have h5 : (c2 : Int) - col = -1 ∨ (c2 : Int) - col = 0 ∨
        (c2 : Int) - col = 1 := by omega
    rcases h5 with h5 | h5 | h5
    · exact ⟨-1, by simp, by omega⟩
    · exact ⟨0, by simp, by omega⟩
    · exact ⟨1, by simp, by omega⟩
  have h3 := h dr hdrmem
  rw [Bool.not_eq_true, List.any_eq_false] at h3
  have h4 := h3 dc hdcmem
  apply h4
  dsimp only
  have hnz : ¬(dr = 0 ∧ dc = 0) := by
    rintro ⟨rfl, rfl⟩
    apply hne
    have e1 : r2 = row := by omega
    have e2 : c2 = col := by omega
    rw [e1, e2]
  rw [if_neg hnz]
  have hbd : 0 ≤ (row : Int) + dr ∧ (row : Int) + dr < (st.size : Int) ∧
      0 ≤ (col : Int) + dc ∧ (col : Int) + dc < (st.size : Int) := by omega
  rw [if_pos hbd]
  rw [show ((row : Int) + dr).toNat = r2 by omega,
    show ((col : Int) + dc).toNat = c2 by omega]
  exact decide_eq_true hq

theorem sgInv_congr {n : Nat} {regions : Nat → Nat → Int} {st st2 : SGState}
    {row : Nat} (h : SGInv n regions st row)
    (h1 : st2.solution = st.solution) (h2 : st2.usedCols = st.usedCols)
    (h3 : st2.usedRegions = st.usedRegions) (h4 : st2.size = st.size)
    (h5 : st2.regions = st.regions) : SGInv n regions st2 row := by
  constructor
  · rw [h4]
    exact h.size_eq
  · rw [h5]
    exact h.regions_eq
  · exact h.row_le
  · rw [h1]
    exact h.queens
  · rw [h1]
    exact h.rowFull
  · rw [h1]
    exact h.rowUniq
  · rw [h1]
    exact h.distinct
  · rw [h1, h2]
    exact h.cols_iff
  · rw [h1, h3, h5]
    exact h.regs_iff

theorem sgInv_place {n : Nat} {regions : Nat → Nat → Int} {st : SGState}
    {row col : Nat} (h : SGInv n regions st row) (hrow : row < n)
    (hcol : col < n) (hvalid : st.isValidPlacement row col = true) :
    SGInv n regions
      { st with solution := bupd st.solution row col 1,
                usedCols := jsSetAdd st.usedCols col,
                usedRegions := jsSetAdd st.usedRegions (st.regions row col) }
      (row + 1) := by
  obtain ⟨hc1, hr1, hadj⟩ := sg_valid_facts hvalid
  have hempty : ∀ r c, row ≤ r → st.solution r c = 0 := by
    intro r c hle
    by_contra hz
    have := (h.queens r c hz).2.1
    omega
  have haddc : jsSetAdd st.usedCols col = st.usedCols ++ [col] := by
    unfold jsSetAdd
    rw [if_neg hc1]
  have haddr : jsSetAdd st.usedRegions (st.regions row col) =
      st.usedRegions ++ [st.regions row col] := by
    unfold jsSetAdd
    rw [if_neg hr1]
  refine ⟨h.size_eq, h.regions_eq, by omega, ?_, ?_, ?_, ?_, ?_, ?_⟩
  · intro r c hz
    dsimp only at hz ⊢
    by_cases hrc : r = row ∧ c = col
    · obtain ⟨rfl, rfl⟩ := hrc
      exact ⟨bupd_self st.solution r c 1, by omega, hcol⟩
    · have hb : bupd st.solution row col 1 r c = st.solution r c :=
        bupd_other _ _ _ _ _ _ hrc
      rw [hb] at hz ⊢
      obtain ⟨q1, q2, q3⟩ := h.queens r c hz
      exact ⟨q1, by omega, q3⟩
  · intro r hr
    dsimp only
    by_cases hrr : r = row
    · subst hrr
      exact ⟨col, hcol, bupd_self st.solution r col 1⟩
    · have hr2 : r < row := by omega
      obtain ⟨c, hc, hq⟩ := h.rowFull r hr2
      refine ⟨c, hc, ?_⟩
      rw [bupd_other st.solution row col 1 r c (fun hp => hrr hp.1)]
      exact hq
  · intro r c1 c2 hq1 hq2
    dsimp only at hq1 hq2
    by_cases hrr : r = row
    · subst hrr
      have e1 : c1 = col := by
        by_contra hcne
        rw [bupd_other st.solution r col 1 r c1 (fun hp => hcne hp.2)] at hq1
        have h0 := hempty r c1 (le_refl _)
        rw [h0] at hq1
        exact absurd hq1 (by decide)
      have e2 : c2 = col := by
        by_contra hcne
        rw [bupd_other st.solution r col 1 r c2 (fun hp => hcne hp.2)] at hq2
        have h0 := hempty r c2 (le_refl _)
        rw [h0] at hq2
        exact absurd hq2 (by decide)
      rw [e1, e2]
    · have hb1 : bupd st.solution row col 1 r c1 = st.solution r c1 :=
        bupd_other _ _ _ _ _ _ (fun hp => hrr hp.1)
      have hb2 : bupd st.solution row col 1 r c2 = st.solution r c2 :=
        bupd_other _ _ _ _ _ _ (fun hp => hrr hp.1)
      rw [hb1] at hq1
      rw [hb2] at hq2
      exact h.rowUniq r c1 c2 hq1 hq2
  · intro r1 c1 r2 c2 hq1 hq2 hne
    dsimp only at hq1 hq2
    by_cases e1 : r1 = row ∧ c1 = col
    · obtain ⟨rfl, rfl⟩ := e1
      by_cases e2 : r2 = r1 ∧ c2 = c1
      · obtain ⟨rfl, rfl⟩ := e2
        exact absurd rfl hne
      · rw [bupd_other st.solution r1 c1 1 r2 c2 e2] at hq2
        have hold := h.queens r2 c2 (by rw [hq2]; exact one_ne_zero)
        refine ⟨?_, ?_, ?_⟩
        · intro hcc
          exact hc1 ((h.cols_iff c1).2 ⟨r2, by rw [← hcc] at hq2; exact hq2⟩)
        · intro hreg
          apply hr1
          refine (h.regs_iff (st.regions r1 c1)).2 ⟨r2, c2, hq2, ?_⟩
          rw [h.regions_eq]
          exact hreg.symm
        · exact hadj r2 c2 (by rw [h.size_eq]; omega)
            (by rw [h.size_eq]; exact hold.2.2) hq2
    · have hb1 : bupd st.solution row col 1 r1 c1 = st.solution r1 c1 :=
        bupd_other _ _ _ _ _ _ e1
      rw [hb1] at hq1
      have hold1 := h.queens r1 c1 (by rw [hq1]; exact one_ne_zero)
      by_cases e2 : r2 = row ∧ c2 = col
      · obtain ⟨rfl, rfl⟩ := e2
        have hcne : c1 ≠ c2 := fun hcc =>
          hc1 ((h.cols_iff c2).2 ⟨r1, by rw [hcc] at hq1; exact hq1⟩)
        refine ⟨hcne, ?_, ?_⟩
        · intro hreg
          apply hr1
          refine (h.regs_iff (st.regions r2 c2)).2 ⟨r1, c1, hq1, ?_⟩
          rw [h.regions_eq]
          exact hreg
        · intro hk
          exact hadj r1 c1 (by rw [h.size_eq]; omega)
            (by rw [h.size_eq]; exact hold1.2.2) hq1 (kingAdjacent_symm hk)
      · have hb2 : bupd st.solution row col 1 r2 c2 = st.solution r2 c2 :=
          bupd_other _ _ _ _ _ _ e2
        rw [hb2] at hq2
        exact h.distinct r1 c1 r2 c2 hq1 hq2 hne
  · intro c
    dsimp only
    rw [haddc]
    constructor
    · intro hmem
      rcases List.mem_append.1 hmem with hm | hm
      · obtain ⟨r, hqr⟩ := (h.cols_iff c).1 hm
        refine ⟨r, ?_⟩
        rw [bupd_other st.solution row col 1 r c ?_]
        · exact hqr
        · rintro ⟨rfl, rfl⟩
          have h0 := hempty r c (le_refl _)
          rw [h0] at hqr
          exact absurd hqr (by decide)
      · have hc2 : c = col := by simpa using hm
        subst hc2
        exact ⟨row, bupd_self st.solution row c 1⟩
    · rintro ⟨r, hqr⟩
      by_cases e : r = row ∧ c = col
      · exact List.mem_append.2 (Or.inr (by simp [e.2]))
      · rw [bupd_other st.solution row col 1 r c e] at hqr
        exact List.mem_append.2 (Or.inl ((h.cols_iff c).2 ⟨r, hqr⟩))
  · intro g
    dsimp only
    rw [haddr]
    constructor
    · intro hmem
      rcases List.mem_append.1 hmem with hm | hm
      · obtain ⟨r, c, hqr, hgr⟩ := (h.regs_iff g).1 hm
        refine ⟨r, c, ?_, hgr⟩
        rw [bupd_other st.solution row col 1 r c ?_]
        · exact hqr
        · rintro ⟨rfl, rfl⟩
          have h0 := hempty r c (le_refl _)
          rw [h0] at hqr
          exact absurd hqr (by decide)
      · have hg : g = st.regions row col := by simpa using hm
        exact ⟨row, col, bupd_self st.solution row col 1, hg.symm⟩
    · rintro ⟨r, c, hqr, hgr⟩
      by_cases e : r = row ∧ c = col
      · refine List.mem_append.2 (Or.inr ?_)
        obtain ⟨rfl, rfl⟩ := e
        simp [← hgr]
      · rw [bupd_other st.solution row col 1 r c e] at hqr
        exact List.mem_append.2 (Or.inl ((h.regs_iff g).2 ⟨r, c, hqr, hgr⟩))

theorem mem_listSwap {l : List Nat} {i j : Nat} {x : Nat}
    (h : x ∈ listSwap l i j) : x ∈ l := by
  unfold listSwap at h
  rcases hgi : l.get? i with _ | a
  · rw [hgi] at h
    exact h
  · rcases hgj : l.get? j with _ | b
    · rw [hgi, hgj] at h
      exact h
    · rw [hgi, hgj] at h
      rcases List.mem_or_eq_of_mem_set h with h2 | rfl
      · rcases List.mem_or_eq_of_mem_set h2 with h3 | rfl
        · exact h3
        · exact List.get?_mem hgj
      · exact List.get?_mem hgi

theorem mem_shuffleAux {rng : Nat → Nat} {arr : List Nat} {idx k : Nat}
    {x : Nat} (h : x ∈ (shuffleAux rng arr idx k).1) : x ∈ arr := by
  induction k generalizing arr idx with
  | zero => exact h
  | succ i ih =>
    dsimp only [shuffleAux] at h
    exact mem_listSwap (ih h)

theorem mem_shuffleArray {rng : Nat → Nat} {idx : Nat} {arr : List Nat}
    {x : Nat} (h : x ∈ (shuffleArray rng idx arr).1) : x ∈ arr :=
  mem_shuffleAux h

theorem sgTryCols_main (n : Nat) (regions : Nat → Nat → Int) (row : Nat)
    (hrowlt : row < n) (next : SGState → SGState)
    (hnextP : ∀ s1, SGInv n regions s1 (row + 1) →
      (((next s1).solution = s1.solution ∧
        (next s1).usedCols = s1.usedCols ∧
        (next s1).usedRegions = s1.usedRegions ∧
        (next s1).size = s1.size ∧
        (next s1).regions = s1.regions) ∧
       (sgGoodFirst n regions s1 → sgGoodFirst n regions (next s1)))) :
    ∀ cols st, (∀ x ∈ cols, x < n) → SGInv n regions st row →
      (((sgTryCols next st row cols).solution = st.solution ∧
        (sgTryCols next st row cols).usedCols = st.usedCols ∧
        (sgTryCols next st row cols).usedRegions = st.usedRegions ∧
        (sgTryCols next st row cols).size = st.size ∧
        (sgTryCols next st row cols).regions = st.regions) ∧
       (sgGoodFirst n regions st →
         sgGoodFirst n regions (sgTryCols next st row cols))) := by
  intro cols
  induction cols with
  | nil =>
    intro st _ _
    exact ⟨⟨rfl, rfl, rfl, rfl, rfl⟩, fun hg => hg⟩
  | cons col rest ihc =>
    intro st hcl hInv2
    dsimp only [sgTryCols]
    by_cases hvp : st.isValidPlacement row col = true
    · rw [if_pos hvp]
      obtain ⟨hcA, hrA, _⟩ := sg_valid_facts hvp
      set stP : SGState := { st with
        solution := bupd st.solution row col 1,
        usedCols := jsSetAdd st.usedCols col,
        usedRegions := jsSetAdd st.usedRegions (st.regions row col) }
        with hstP
      have hInvP : SGInv n regions stP (row + 1) :=
        sgInv_place hInv2 hrowlt (hcl col (List.mem_cons_self col rest)) hvp
      obtain ⟨⟨e1, e2, e3, e4, e5⟩, hgood⟩ := hnextP stP hInvP
      set stN : SGState := next stP with hstN
      set st3 : SGState := { stN with
        solution := bupd stN.solution row col 0,
        usedCols := stN.usedCols.erase col,
        usedRegions := stN.usedRegions.erase (stN.regions row col) }
        with hst3
      have hsol3 : st3.solution = st.solution := by
        funext x y
        show bupd stN.solution row col 0 x y = st.solution x y
        by_cases hxy : x = row ∧ y = col
        · rw [hxy.1, hxy.2, bupd_self]
          by_cases hz : st.solution row col = 0
          · rw [hz]
          · exact absurd (hInv2.queens row col hz).2.1 (lt_irrefl row)
        · rw [bupd_other stN.solution row col 0 x y hxy]
          have hPN : stN.solution x y = st.solution x y := by
            rw [e1]
            exact bupd_other st.solution row col 1 x y hxy
          exact hPN
      have hcols3 : st3.usedCols = st.usedCols := by
        show stN.usedCols.erase col = st.usedCols
        rw [e2]
        show (jsSetAdd st.usedCols col).erase col = st.usedCols
        unfold jsSetAdd
        rw [if_neg hcA, List.erase_append_right _ hcA, List.erase_cons_head,
          List.append_nil]
      have hregs3 : st3.usedRegions = st.usedRegions := by
        show stN.usedRegions.erase (stN.regions row col) = st.usedRegions
        rw [e5, e3]
        show (jsSetAdd st.usedRegions (st.regions row col)).erase
          (st.regions row col) = st.usedRegions
        unfold jsSetAdd
        rw [if_neg hrA, List.erase_append_right _ hrA, List.erase_cons_head,
          List.append_nil]
      have hsz3 : st3.size = st.size := e4
      have hrg3 : st3.regions = st.regions := e5
      have hInv3 : SGInv n regions st3 row :=
        sgInv_congr hInv2 hsol3 hcols3 hregs3 hsz3 hrg3
      have hg3 : sgGoodFirst n regions st → sgGoodFirst n regions st3 :=
        fun hg => hgood hg
      by_cases hex : 2 ≤ st3.solutionsFound
      · rw [if_pos hex]
        exact ⟨⟨hsol3, hcols3, hregs3, hsz3, hrg3⟩, hg3⟩
      · rw [if_neg hex]
        obtain ⟨⟨f1, f2, f3, f4, f5⟩, fgood⟩ :=
          ihc st3 (fun x hx => hcl x (List.mem_cons_of_mem col hx)) hInv3
        exact ⟨⟨f1.trans hsol3, f2.trans hcols3, f3.trans hregs3,
          f4.trans hsz3, f5.trans hrg3⟩, fun hg => fgood (hg3 hg)⟩
    · rw [if_neg hvp]
      exact ihc st (fun x hx => hcl x (List.mem_cons_of_mem col hx)) hInv2

theorem sg_solve_main (n : Nat) (regions : Nat → Nat → Int) :
    ∀ fuel row st, SGInv n regions st row →
      (((sgSolveAux fuel st row).solution = st.solution ∧
        (sgSolveAux fuel st row).usedCols = st.usedCols ∧
        (sgSolveAux fuel st row).usedRegions = st.usedRegions ∧
        (sgSolveAux fuel st row).size = st.size ∧
        (sgSolveAux fuel st row).regions = st.regions) ∧
       (sgGoodFirst n regions st →
         sgGoodFirst n regions (sgSolveAux fuel st row))) := by
  intro fuel
  induction fuel with
  | zero =>
    intro row st _
    exact ⟨⟨rfl, rfl, rfl, rfl, rfl⟩, fun hg => hg⟩
  | succ fuel ih =>
    intro row st hInv
    dsimp only [sgSolveAux]
    by_cases h2 : 2 ≤ st.solutionsFound
    · rw [if_pos h2]
      exact ⟨⟨rfl, rfl, rfl, rfl, rfl⟩, fun hg => hg⟩
    · rw [if_neg h2]
      by_cases hrow : row = st.size
      · rw [if_pos hrow]
        by_cases h0 : st.solutionsFound = 0
        · rw [if_pos h0]
          refine ⟨⟨rfl, rfl, rfl, rfl, rfl⟩, ?_⟩
          intro _
          unfold sgGoodFirst
          refine ⟨?_, ?_⟩
          · intro g hge
            have hg2 : st.solution = g := Option.some.inj hge
            rw [← hg2]
            apply sgInv_final
            have hn : row = n := hrow.trans hInv.size_eq
            exact hn ▸ hInv
          · intro _
            rfl
        · rw [if_neg h0]
          refine ⟨⟨rfl, rfl, rfl, rfl, rfl⟩, ?_⟩
          intro hg
          unfold sgGoodFirst at hg ⊢
          exact ⟨hg.1, fun _ => hg.2 (by omega)⟩
      · rw [if_neg hrow]
        have hrowlt : row < n := by
          have h3 := hInv.row_le
          have h4 := hInv.size_eq
          omega
        have hcols :
            ∀ x ∈ (shuffleArray st.rng st.idx (List.range st.size)).1,
              x < n := by
          intro x hx
          have h5 := mem_shuffleArray hx
          rw [List.mem_range, hInv.size_eq] at h5
          exact h5
        have hInv1 : SGInv n regions
            { st with
              idx := (shuffleArray st.rng st.idx (List.range st.size)).2 }
            row :=
          sgInv_congr hInv rfl rfl rfl rfl rfl
        obtain ⟨⟨g1, g2, g3, g4, g5⟩, ggood⟩ :=
          sgTryCols_main n regions row hrowlt
            (fun s1 => sgSolveAux fuel s1 (row + 1))
            (fun s1 hs1 => ih (row + 1) s1 hs1)
            (shuffleArray st.rng st.idx (List.range st.size)).1
            { st with
              idx := (shuffleArray st.rng st.idx (List.range st.size)).2 }
            hcols hInv1
        exact ⟨⟨g1, g2, g3, g4, g5⟩, fun hg => ggood hg⟩

theorem sg_generate_props (n : Nat) (regions : Nat → Nat → Int)
    (rng : Nat → Nat) (i : Nat) :
    (1 ≤ ((SGState.init n regions rng i).generate).1.count →
      (((SGState.init n regions rng i).generate).2.firstSolution).isSome) ∧
    (∀ g, ((SGState.init n regions rng i).generate).2.firstSolution = some g →
      validWitnessSolution n regions g) := by
  have hInv : SGInv n regions (SGState.init n regions rng i) 0 := by
    constructor
    · rfl
    · rfl
    · omega
    · intro r c hz
      exact absurd rfl hz
    · intro r hr
      exact absurd hr (Nat.not_lt_zero r)
    · intro r c1 c2 hq1 _
      have hz : (SGState.init n regions rng i).solution r c1 = 0 := rfl
      rw [hz] at hq1
      exact absurd hq1 (by decide)
    · intro r1 c1 r2 c2 hq1 _ _
      have hz : (SGState.init n regions rng i).solution r1 c1 = 0 := rfl
      rw [hz] at hq1
      exact absurd hq1 (by decide)
    · intro c
      constructor
      · intro hm
        cases hm
      · rintro ⟨r, hq⟩
        have hz : (SGState.init n regions rng i).solution r c = 0 := rfl
        rw [hz] at hq
        exact absurd hq (by decide)
    · intro g
      constructor
      · intro hm
        cases hm
      · rintro ⟨r, c, hq, _⟩
        have hz : (SGState.init n regions rng i).solution r c = 0 := rfl
        rw [hz] at hq
        exact absurd hq (by decide)
  have hGF : sgGoodFirst n regions (SGState.init n regions rng i) := by
    constructor
    · intro g hge
      exact Option.noConfusion hge
    · intro h1
      have hz : (SGState.init n regions rng i).solutionsFound = 0 := rfl
      rw [hz] at h1
      exact absurd h1 (by decide)
  have hres := sg_solve_main n regions (n + 1) 0 (SGState.init n regions rng i)
    hInv
  have hgood := hres.2 hGF
  exact ⟨fun h1 => hgood.2 h1, fun g hge => hgood.1 g hge⟩

/-- C2 counterexample: on the 1-by-1 board with one region and the
all-zeros random stream, the uniqueness solver reports a count of 1,
yet the `solution` grid in the very result of `generate` is not a valid
witness: it is the backtracked working board, which holds no queen at
all. -/
theorem claim_C2_counterexample :
    ((SGState.init 1 (fun _ _ => 0) constZeroStream 0).generate).1.count
      = 1 ∧
    ¬validWitnessSolution 1 (fun _ _ => 0)
      ((SGState.init 1 (fun _ _ => 0) constZeroStream 0).generate).1.solution
    := by
  constructor
  · rfl
  · intro hv
    have h0 := hv.1 0 (by decide)
    have hz : queensInRow
        ((SGState.init 1 (fun _ _ => 0) constZeroStream 0).generate).1.solution
        1 0 = 0 := rfl
    rw [hz] at h0
    exact absurd h0 (by decide)

/-- C2 (amended): the grid the claim speaks of is the recorded
`firstSolution`, not the returned `solution` field (which is the
backtracked working board — see the counterexample).  For every size,
region map and randomness: when the count is at least 1 a first
solution was recorded, and every recorded first solution marks exactly
one queen per row and per column, its queens pairwise sit in distinct
regions and are never king-adjacent, and — whenever the region map is
well-formed (every cell id in [0, size)) — exactly one queen per
region. -/
theorem claim_C2_first_solution_valid (n : Nat) (regions : Nat → Nat → Int)
    (rng : Nat → Nat) (i : Nat) :
    (1 ≤ ((SGState.init n regions rng i).generate).1.count →
      (((SGState.init n regions rng i).generate).2.firstSolution).isSome) ∧
    (∀ g, ((SGState.init n regions rng i).generate).2.firstSolution = some g →
      validWitnessSolution n regions g) :=
  sg_generate_props n regions rng i

theorem claim_C2_witness :
    1 ≤ ((SGState.init 1 (fun _ _ => 0) constZeroStream 0).generate).1.count ∧
    (((SGState.init 1 (fun _ _ => 0) constZeroStream
      0).generate).2.firstSolution).isSome ∧
    validWitnessSolution 1 (fun _ _ => 0) (bupd (fun _ _ => 0) 0 0 1) := by
  have h := claim_C2_first_solution_valid 1 (fun _ _ => 0) constZeroStream 0
  exact ⟨by decide, h.1 (by decide), h.2 (bupd (fun _ _ => 0) 0 0 1) rfl⟩

theorem mem_rgUnassignedNeighbors {size : Nat} {m : Nat → Nat → Int}
    {row col : Nat} {p : Nat × Nat}
    (h : p ∈ rgUnassignedNeighbors size m row col) :
    inGrid size p ∧ m p.1 p.2 = -1 ∧ adj4 (row, col) p := by
  unfold rgUnassignedNeighbors at h
  rw [List.mem_filterMap] at h
  obtain ⟨d, hd, hfd⟩ := h
  simp only [List.mem_cons, List.not_mem_nil, or_false] at hd
  rcases hd with rfl | rfl | rfl | rfl
  all_goals
    dsimp only at hfd
    split_ifs at hfd with h1 h2
    all_goals try exact Option.noConfusion hfd
  all_goals obtain rfl := Option.some.inj hfd
  · exact ⟨⟨by omega, by omega⟩, h2, Or.inr ⟨by omega, Or.inr (by omega)⟩⟩
  · exact ⟨⟨by omega, by omega⟩, h2, Or.inr ⟨by omega, Or.inl (by omega)⟩⟩
  · exact ⟨⟨by omega, by omega⟩, h2, Or.inl ⟨by omega, Or.inr (by omega)⟩⟩
  · exact ⟨⟨by omega, by omega⟩, h2, Or.inl ⟨by omega, Or.inl (by omega)⟩⟩

theorem mem_rgAssignedNeighbors {size : Nat} {m : Nat → Nat → Int}
    {row col : Nat} {pr : (Nat × Nat) × Int}
    (h : pr ∈ rgAssignedNeighbors size m row col) :
    inGrid size pr.1 ∧ m pr.1.1 pr.1.2 = pr.2 ∧ pr.2 ≠ -1 ∧
      adj4 (row, col) pr.1 := by
  unfold rgAssignedNeighbors at h
  rw [List.mem_filterMap] at h
  obtain ⟨d, hd, hfd⟩ := h
  simp only [List.mem_cons, List.not_mem_nil, or_false] at hd
  rcases hd with rfl | rfl | rfl | rfl
  all_goals
    dsimp only at hfd
    split_ifs at hfd with h1 h2
    all_goals try exact Option.noConfusion hfd
  all_goals obtain rfl := Option.some.inj hfd
  all_goals dsimp only [inGrid, adj4]
  · exact ⟨⟨by omega, by omega⟩, rfl, h2, Or.inr ⟨by omega, Or.inr (by omega)⟩⟩
  · exact ⟨⟨by omega, by omega⟩, rfl, h2, Or.inr ⟨by omega, Or.inl (by omega)⟩⟩
  · exact ⟨⟨by omega, by omega⟩, rfl, h2, Or.inl ⟨by omega, Or.inr (by omega)⟩⟩
  · exact ⟨⟨by omega, by omega⟩, rfl, h2, Or.inl ⟨by omega, Or.inl (by omega)⟩⟩

theorem regionStep_mono {n : Nat} {m m2 : Nat → Nat → Int} {id : Int}
    (h : ∀ r c, m r c = id → m2 r c = id) :
    ∀ p q, regionStep n m id p q → regionStep n m2 id p q :=
  fun _ q hs => ⟨hs.1, h q.1 q.2 hs.2.1, hs.2.2⟩

theorem regionConnected_insert {n : Nat} {m : Nat → Nat → Int} {id : Int}
    (hconn : RegionConnected n m id) {a q : Nat × Nat}
    (ha : inGrid n a) (haid : m a.1 a.2 = id)
    (hq : inGrid n q) (hadj : adj4 a q) :
    RegionConnected n (bupd m q.1 q.2 id) id := by
  have hpres : ∀ r c, m r c = id → bupd m q.1 q.2 id r c = id := by
    intro r c hrc
    by_cases hrq : r = q.1 ∧ c = q.2
    · rw [hrq.1, hrq.2]
      exact bupd_self m q.1 q.2 id
    · rw [bupd_other m q.1 q.2 id r c hrq]
      exact hrc
  have hval : ∀ p : Nat × Nat, bupd m q.1 q.2 id p.1 p.2 = id →
      p = q ∨ m p.1 p.2 = id := by
    intro p hp
    by_cases hpq : p.1 = q.1 ∧ p.2 = q.2
    · exact Or.inl (Prod.ext hpq.1 hpq.2)
    · rw [bupd_other m q.1 q.2 id p.1 p.2 hpq] at hp
      exact Or.inr hp
  have hq2 : bupd m q.1 q.2 id q.1 q.2 = id := bupd_self m q.1 q.2 id
  have ha2 : bupd m q.1 q.2 id a.1 a.2 = id := hpres a.1 a.2 haid
  have hlift : ∀ u v, inGrid n u → m u.1 u.2 = id → inGrid n v →
      m v.1 v.2 = id →
      Relation.ReflTransGen (regionStep n (bupd m q.1 q.2 id) id) u v :=
    fun u v h1 h2 h3 h4 =>
      Relation.ReflTransGen.mono (regionStep_mono hpres) (hconn u v h1 h2 h3 h4)
  have haq : Relation.ReflTransGen (regionStep n (bupd m q.1 q.2 id) id) a q :=
    Relation.ReflTransGen.single ⟨hq, hq2, hadj⟩
  have hqa : Relation.ReflTransGen (regionStep n (bupd m q.1 q.2 id) id) q a :=
    Relation.ReflTransGen.single ⟨ha, ha2, adj4_symm hadj⟩
  intro x y hx hxid hy hyid
  rcases hval x hxid with rfl | hxold
  · rcases hval y hyid with rfl | hyold
    · exact Relation.ReflTransGen.refl
    · exact hqa.trans (hlift a y ha haid hy hyold)
  · rcases hval y hyid with rfl | hyold
    · exact (hlift x a hx hxold ha haid).trans haq
    · exact hlift x y hx hxold hy hyold

theorem regionConnected_other {n : Nat} {m : Nat → Nat → Int} {id v : Int}
    {r c : Nat} (hconn : RegionConnected n m id) (hid : id ≠ v)
    (hold : m r c ≠ id) :
    RegionConnected n (bupd m r c v) id := by
  have hiff : ∀ a b : Nat, bupd m r c v a b = id ↔ m a b = id := by
    intro a b
    by_cases hab : a = r ∧ b = c
    · rw [hab.1, hab.2, bupd_self]
      constructor
      · intro hv2
        exact absurd hv2.symm hid
      · intro hmrc
        exact absurd hmrc hold
    · rw [bupd_other m r c v a b hab]
  intro x y hx hxid hy hyid
  refine Relation.ReflTransGen.mono ?_
    (hconn x y hx ((hiff x.1 x.2).1 hxid) hy ((hiff y.1 y.2).1 hyid))
  intro p q2 hs
  exact ⟨hs.1, (hiff q2.1 q2.2).2 hs.2.1, hs.2.2⟩

theorem rgPickFree_sound {size : Nat} {rng : Nat → Nat}
    {used : List (Nat × Nat)} (hsize : 0 < size) :
    ∀ fuel idx out, rgPickFree size rng idx used fuel = some out →
      out.1 ∉ used ∧ out.1.1 < size ∧ out.1.2 < size := by
  intro fuel
  induction fuel with
  | zero =>
    intro idx out h
    exact Option.noConfusion h
  | succ fuel ih =>
    intro idx out h
    dsimp only [rgPickFree] at h
    by_cases hmem : (rng idx % size, rng (idx + 1) % size) ∈ used
    · rw [if_pos hmem] at h
      exact ih (idx + 2) out h
    · rw [if_neg hmem] at h
      obtain rfl := (Option.some.inj h).symm
      exact ⟨hmem, Nat.mod_lt _ hsize, Nat.mod_lt _ hsize⟩

theorem rgSeedsLoop_sound (size : Nat) (rng : Nat → Nat) (fuel : Nat) :
    ∀ ids regions idx used seeds out,
      rgSeedsLoop size rng fuel regions idx used seeds ids = some out →
      ids.Nodup →
      rgVals size regions →
      rgConnAll size regions →
      (∀ p : Nat × Nat, regions p.1 p.2 ≠ -1 → p ∈ used ∧ inGrid size p) →
      (∀ id ∈ ids, id < size ∧ ∀ r c, regions r c ≠ (id : Int)) →
      (∀ pr ∈ seeds, inGrid size pr.1 ∧
        regions pr.1.1 pr.1.2 = (pr.2 : Int)) →
      (rgVals size out.1 ∧ rgConnAll size out.1 ∧
       (∀ pr ∈ out.2.2, inGrid size pr.1 ∧
         out.1 pr.1.1 pr.1.2 = (pr.2 : Int)) ∧
       ∃ extra, out.2.2 = seeds ++ extra ∧
         extra.map (fun pr => pr.2) = ids) := by
  intro ids
  induction ids with
  | nil =>
    intro regions idx used seeds out heq _ hvals hconn _ _ hacc
    obtain rfl := Option.some.inj heq
    exact ⟨hvals, hconn, hacc, [], by simp, rfl⟩
  | cons regionId rest ih =>
    intro regions idx used seeds out heq hnd hvals hconn hused hfresh hacc
    dsimp only [rgSeedsLoop] at heq
    rcases hpick : rgPickFree size rng idx used fuel with _ | cellIdx
    · rw [hpick] at heq
      exact Option.noConfusion heq
    · rw [hpick] at heq
      obtain ⟨cell, idx1⟩ := cellIdx
      dsimp only at heq
      have hrid := hfresh regionId (List.mem_cons_self _ _)
      have hsize : 0 < size := by
        have := hrid.1
        omega
      obtain ⟨hnot, hr, hc⟩ :=
        rgPickFree_sound hsize fuel idx (cell, idx1) hpick
      dsimp only at hnot hr hc
      have hcellm : regions cell.1 cell.2 = -1 := by
        by_contra hz
        exact hnot (hused cell hz).1
      set m2 := bupd regions cell.1 cell.2 (regionId : Int) with hm2
      have hvals2 : rgVals size m2 := by
        intro r c hr2 hc2
        by_cases hrc : r = cell.1 ∧ c = cell.2
        · rw [hrc.1, hrc.2, hm2, bupd_self]
          right
          refine ⟨by omega, ?_⟩
          have := hrid.1
          omega
        · rw [hm2, bupd_other regions cell.1 cell.2 _ r c hrc]
          exact hvals r c hr2 hc2
      have hconn2 : rgConnAll size m2 := by
        intro id2 hid2
        by_cases hideq : id2 = regionId
        · subst hideq
          intro p q2 hp hpid hq hqid
          have hple : p = cell := by
            by_cases hpc : p.1 = cell.1 ∧ p.2 = cell.2
            · exact Prod.ext hpc.1 hpc.2
            · rw [hm2, bupd_other regions cell.1 cell.2 _ p.1 p.2 hpc]
                at hpid
              exact absurd hpid (hrid.2 p.1 p.2)
          have hqe : q2 = cell := by
            by_cases hqc : q2.1 = cell.1 ∧ q2.2 = cell.2
            · exact Prod.ext hqc.1 hqc.2
            · rw [hm2, bupd_other regions cell.1 cell.2 _ q2.1 q2.2 hqc]
                at hqid
              exact absurd hqid (hrid.2 q2.1 q2.2)
          rw [hple, hqe]
        · refine regionConnected_other (hconn id2 hid2) ?_ ?_
          · intro hcast
            exact hideq (by exact_mod_cast hcast)
          · intro hz
            rw [hcellm] at hz
            omega
      have hused2 : ∀ p : Nat × Nat, m2 p.1 p.2 ≠ -1 →
          p ∈ used ++ [cell] ∧ inGrid size p := by
        intro p hz
        by_cases hpc : p.1 = cell.1 ∧ p.2 = cell.2
        · have hpe : p = cell := Prod.ext hpc.1 hpc.2
          exact ⟨List.mem_append.2 (Or.inr (by simp [hpe])),
            by rw [hpe]; exact ⟨hr, hc⟩⟩
        · rw [hm2, bupd_other regions cell.1 cell.2 _ p.1 p.2 hpc] at hz
          obtain ⟨h5, h6⟩ := hused p hz
          exact ⟨List.mem_append.2 (Or.inl h5), h6⟩
      have hfresh2 : ∀ id ∈ rest, id < size ∧ ∀ r c, m2 r c ≠ (id : Int) := by
        intro id hid
        refine ⟨(hfresh id (List.mem_cons_of_mem _ hid)).1, ?_⟩
        intro r c
        by_cases hrc : r = cell.1 ∧ c = cell.2
        · rw [hrc.1, hrc.2, hm2, bupd_self]
          intro hcast
          have hne : regionId ≠ id := by
            intro hcontra
            rw [List.nodup_cons] at hnd
            exact hnd.1 (hcontra ▸ hid)
          exact hne (by exact_mod_cast hcast)
        · rw [hm2, bupd_other regions cell.1 cell.2 _ r c hrc]
          exact (hfresh id (List.mem_cons_of_mem _ hid)).2 r c
      have hacc2 : ∀ pr ∈ seeds ++ [(cell, regionId)], inGrid size pr.1 ∧
          m2 pr.1.1 pr.1.2 = (pr.2 : Int) := by
        intro pr hpr
        rcases List.mem_append.1 hpr with hm | hm
        · obtain ⟨h7, h8⟩ := hacc pr hm
          refine ⟨h7, ?_⟩
          by_cases hrc : pr.1.1 = cell.1 ∧ pr.1.2 = cell.2
          · rw [hrc.1, hrc.2, hcellm] at h8
            exact absurd h8 (by omega)
          · rw [hm2, bupd_other regions cell.1 cell.2 _ _ _ hrc]
            exact h8
        · have hpe : pr = (cell, regionId) := by simpa using hm
          rw [hpe]
          exact ⟨⟨hr, hc⟩, by rw [hm2]; exact bupd_self _ _ _ _⟩
      have hnd2 : rest.Nodup := by
        rw [List.nodup_cons] at hnd
        exact hnd.2
      obtain ⟨o1, o2, o3, extra, he1, he2⟩ :=
        ih m2 idx1 (used ++ [cell]) (seeds ++ [(cell, regionId)]) out heq
          hnd2 hvals2 hconn2 hused2 hfresh2 hacc2
      refine ⟨o1, o2, o3, (cell, regionId) :: extra, ?_, ?_⟩
      · rw [he1]
        simp
      · simp [he2]

theorem rgRoundStep_sound {size : Nat} {rng : Nat → Nat}
    (state : (Nat → Nat → Int) × List (List (Nat × Nat)) × Nat × Bool)
    (regionId : Nat) (hrid : regionId < size)
    (hvals : rgVals size state.1) (hconn : rgConnAll size state.1)
    (hfr : rgFrontOK size state.1 state.2.1) :
    rgVals size (rgRoundStep size rng state regionId).1 ∧
    rgConnAll size (rgRoundStep size rng state regionId).1 ∧
    rgFrontOK size (rgRoundStep size rng state regionId).1
      (rgRoundStep size rng state regionId).2.1 ∧
    rgNoOv state.1 (rgRoundStep size rng state regionId).1 := by
  obtain ⟨m, frontiers, idx, hgw⟩ := state
  dsimp only at hvals hconn hfr ⊢
  unfold rgRoundStep
  dsimp only
  by_cases hlen : (frontiers.getD regionId []).length = 0
  · rw [if_pos hlen]
    exact ⟨hvals, hconn, hfr, fun r c _ => rfl⟩
  · rw [if_neg hlen]
    set fr := frontiers.getD regionId [] with hfrdef
    have hfrpos : 0 < fr.length := Nat.pos_of_ne_zero hlen
    set pidx := rng idx % fr.length with hpidx
    have hpilt : pidx < fr.length := Nat.mod_lt _ hfrpos
    set cell := fr.getD pidx (0, 0) with hcelldef
    have hcellmem : cell ∈ fr := by
      rw [hcelldef, List.getD_eq_getElem fr (0, 0) hpilt]
      exact List.getElem_mem hpilt
    have hcellprop := hfr.2 regionId hrid cell hcellmem
    have hgetset : ∀ (L : List (Nat × Nat)) (rid : Nat), rid < size →
        (frontiers.set regionId L).getD rid [] =
          if regionId = rid then L else frontiers.getD rid [] := by
      intro L rid hrid2
      have hridlen : rid < frontiers.length := by
        rw [hfr.1]
        exact hrid2
      rw [List.getD_eq_getElem _ _ (by rw [List.length_set]; exact hridlen),
        List.getElem_set]
      by_cases hre : regionId = rid
      · rw [if_pos hre, if_pos hre]
      · rw [if_neg hre, if_neg hre,
          ← List.getD_eq_getElem frontiers [] hridlen]
    by_cases hnb : 0 < (rgUnassignedNeighbors size m cell.1 cell.2).length
    · rw [if_pos hnb]
      set nbs := rgUnassignedNeighbors size m cell.1 cell.2 with hnbs
      have hnblt : rng (idx + 1) % nbs.length < nbs.length := Nat.mod_lt _ hnb
      set nb := nbs.getD (rng (idx + 1) % nbs.length) (0, 0) with hnbdef
      have hnbmem : nb ∈ nbs := by
        rw [hnbdef, List.getD_eq_getElem nbs (0, 0) hnblt]
        exact List.getElem_mem hnblt
      obtain ⟨hnbg, hnbm, hnbadj⟩ := mem_rgUnassignedNeighbors hnbmem
      dsimp only
      refine ⟨?_, ?_, ?_, ?_⟩
      · intro r c hr hc
        by_cases hrc : r = nb.1 ∧ c = nb.2
        · rw [hrc.1, hrc.2, bupd_self]
          right
          exact ⟨by omega, by omega⟩
        · rw [bupd_other m nb.1 nb.2 _ r c hrc]
          exact hvals r c hr hc
      · intro id2 hid2
        by_cases hideq : id2 = regionId
        · subst hideq
          exact regionConnected_insert (hconn id2 hid2) hcellprop.1
            hcellprop.2 hnbg hnbadj
        · refine regionConnected_other (hconn id2 hid2) ?_ ?_
          · intro hcast
            exact hideq (by exact_mod_cast hcast)
          · intro hz
            rw [hnbm] at hz
            omega
      · constructor
        · rw [List.length_set]
          exact hfr.1
        · intro rid hrid2 p hp
          rw [hgetset _ rid hrid2] at hp
          have hval2 : ∀ q : Nat × Nat, m q.1 q.2 = (rid : Int) →
              bupd m nb.1 nb.2 (regionId : Int) q.1 q.2 = (rid : Int) := by
            intro q hq
            have hqnb : ¬(q.1 = nb.1 ∧ q.2 = nb.2) := by
              rintro ⟨e1, e2⟩
              rw [e1, e2, hnbm] at hq
              omega
            rw [bupd_other m nb.1 nb.2 _ q.1 q.2 hqnb]
            exact hq
          by_cases hre : regionId = rid
          · subst hre
            rw [if_pos rfl] at hp
            rcases List.mem_append.1 hp with hm2 | hm2
            · have hprop := hfr.2 regionId hrid p hm2
              exact ⟨hprop.1, hval2 p hprop.2⟩
            · have hpe : p = nb := by simpa using hm2
              rw [hpe]
              refine ⟨hnbg, ?_⟩
              rw [bupd_self]
          · rw [if_neg hre] at hp
            have hprop := hfr.2 rid hrid2 p hp
            exact ⟨hprop.1, hval2 p hprop.2⟩
      · intro r c hz
        by_cases hrc : r = nb.1 ∧ c = nb.2
        · rw [hrc.1, hrc.2] at hz
          exact absurd hnbm hz
        · exact bupd_other m nb.1 nb.2 _ r c hrc
    · rw [if_neg hnb]
      dsimp only
      refine ⟨hvals, hconn, ⟨?_, ?_⟩, fun r c _ => rfl⟩
      · rw [List.length_set]
        exact hfr.1
      · intro rid hrid2 p hp
        rw [hgetset _ rid hrid2] at hp
        by_cases hre : regionId = rid
        · rw [if_pos hre] at hp
          have hp2 : p ∈ fr := List.mem_of_mem_eraseIdx hp
          rw [← hre]
          exact hfr.2 regionId hrid p hp2
        · rw [if_neg hre] at hp
          exact hfr.2 rid hrid2 p hp

theorem rgFold_sound {size : Nat} {rng : Nat → Nat} :
    ∀ (l : List Nat)
      (state : (Nat → Nat → Int) × List (List (Nat × Nat)) × Nat × Bool),
      (∀ x ∈ l, x < size) →
      rgVals size state.1 → rgConnAll size state.1 →
      rgFrontOK size state.1 state.2.1 →
      (rgVals size (l.foldl (rgRoundStep size rng) state).1 ∧
       rgConnAll size (l.foldl (rgRoundStep size rng) state).1 ∧
       rgFrontOK size (l.foldl (rgRoundStep size rng) state).1
         (l.foldl (rgRoundStep size rng) state).2.1 ∧
       rgNoOv state.1 (l.foldl (rgRoundStep size rng) state).1) := by
  intro l
  induction l with
  | nil =>
    intro state _ h1 h2 h3
    exact ⟨h1, h2, h3, fun r c _ => rfl⟩
  | cons x rest ih =>
    intro state hl h1 h2 h3
    obtain ⟨g1, g2, g3, g4⟩ :=
      rgRoundStep_sound state x (hl x (List.mem_cons_self _ _)) h1 h2 h3
    obtain ⟨f1, f2, f3, f4⟩ := ih (rgRoundStep size rng state x)
      (fun y hy => hl y (List.mem_cons_of_mem _ hy)) g1 g2 g3
    exact ⟨f1, f2, f3, fun r c hz =>
      (f4 r c (by rw [g4 r c hz]; exact hz)).trans (g4 r c hz)⟩

theorem rgRound_sound {size : Nat} {rng : Nat → Nat}
    {regions : Nat → Nat → Int} {frontiers : List (List (Nat × Nat))}
    {idx : Nat}
    (h1 : rgVals size regions) (h2 : rgConnAll size regions)
    (h3 : rgFrontOK size regions frontiers) :
    rgVals size (rgRound size rng regions frontiers idx).1 ∧
    rgConnAll size (rgRound size rng regions frontiers idx).1 ∧
    rgFrontOK size (rgRound size rng regions frontiers idx).1
      (rgRound size rng regions frontiers idx).2.1 ∧
    rgNoOv regions (rgRound size rng regions frontiers idx).1 := by
  unfold rgRound
  dsimp only
  refine rgFold_sound _ _ ?_ h1 h2 h3
  intro x hx
  have h4 := mem_shuffleArray hx
  rw [List.mem_range] at h4
  exact h4

theorem rgGrowLoop_sound {size : Nat} {rng : Nat → Nat} :
    ∀ fuel regions frontiers idx out,
      rgGrowLoop size rng regions frontiers idx fuel = some out →
      rgVals size regions → rgConnAll size regions →
      rgFrontOK size regions frontiers →
      (rgVals size out.1 ∧ rgConnAll size out.1 ∧ rgNoOv regions out.1) := by
  intro fuel
  induction fuel with
  | zero =>
    intro _ _ _ _ h _ _ _
    exact Option.noConfusion h
  | succ fuel ih =>
    intro regions frontiers idx out h h1 h2 h3
    dsimp only [rgGrowLoop] at h
    obtain ⟨g1, g2, g3, g4⟩ :=
      @rgRound_sound size rng regions frontiers idx h1 h2 h3
    by_cases hgrow : (rgRound size rng regions frontiers idx).2.2.2 = true
    · rw [if_pos hgrow] at h
      obtain ⟨f1, f2, f3⟩ := ih _ _ _ _ h g1 g2 g3
      exact ⟨f1, f2, fun r c hz =>
        (f3 r c (by rw [g4 r c hz]; exact hz)).trans (g4 r c hz)⟩
    · rw [if_neg hgrow] at h
      obtain rfl := Option.some.inj h
      exact ⟨g1, g2, g4⟩

theorem rgFill_fold_sound (size : Nat) :
    ∀ (cells : List (Nat × Nat)) (regions : Nat → Nat → Int),
      (∀ p ∈ cells, inGrid size p) →
      rgVals size regions → rgConnAll size regions →
      (rgVals size (cells.foldl
        (fun regs p =>
          if regs p.1 p.2 = -1 then
            let neighbors := rgAssignedNeighbors size regs p.1 p.2
            if neighbors.length > 0 then
              bupd regs p.1 p.2 (neighbors.headD ((0, 0), 0)).2
            else regs
          else regs) regions) ∧
       rgConnAll size (cells.foldl
        (fun regs p =>
          if regs p.1 p.2 = -1 then
            let neighbors := rgAssignedNeighbors size regs p.1 p.2
            if neighbors.length > 0 then
              bupd regs p.1 p.2 (neighbors.headD ((0, 0), 0)).2
            else regs
          else regs) regions) ∧
       rgNoOv regions (cells.foldl
        (fun regs p =>
          if regs p.1 p.2 = -1 then
            let neighbors := rgAssignedNeighbors size regs p.1 p.2
            if neighbors.length > 0 then
              bupd regs p.1 p.2 (neighbors.headD ((0, 0), 0)).2
            else regs
          else regs) regions)) := by
  intro cells
  induction cells with
  | nil =>
    intro regions _ h1 h2
    exact ⟨h1, h2, fun r c _ => rfl⟩
  | cons p rest ih =>
    intro regions hcells h1 h2
    rw [List.foldl_cons]
    dsimp only
    by_cases hz : regions p.1 p.2 = -1
    · rw [if_pos hz]
      by_cases hnb : 0 < (rgAssignedNeighbors size regions p.1 p.2).length
      · rw [if_pos hnb]
        have hhead : (rgAssignedNeighbors size regions p.1 p.2).headD
            ((0, 0), 0) ∈ rgAssignedNeighbors size regions p.1 p.2 := by
          rcases hL : rgAssignedNeighbors size regions p.1 p.2 with _ | ⟨x, t⟩
          · rw [hL] at hnb
            simp at hnb
          · simp
        obtain ⟨hqg, hqv, hqne, hqadj⟩ := mem_rgAssignedNeighbors hhead
        set v := ((rgAssignedNeighbors size regions p.1 p.2).headD
          ((0, 0), 0)).2 with hv
        set q := ((rgAssignedNeighbors size regions p.1 p.2).headD
          ((0, 0), 0)).1 with hq
        have hp := hcells p (List.mem_cons_self _ _)
        have hvrange : 0 ≤ v ∧ v < (size : Int) := by
          rcases h1 q.1 q.2 hqg.1 hqg.2 with hneg | hpos
          · exact absurd (hqv.symm.trans hneg) hqne
          · rw [hqv] at hpos
            exact hpos
        have g1 : rgVals size (bupd regions p.1 p.2 v) := by
          intro r c hr hc
          by_cases hrc : r = p.1 ∧ c = p.2
          · rw [hrc.1, hrc.2, bupd_self]
            exact Or.inr hvrange
          · rw [bupd_other regions p.1 p.2 v r c hrc]
            exact h1 r c hr hc
        have g2 : rgConnAll size (bupd regions p.1 p.2 v) := by
          intro id2 hid2
          by_cases hide : (id2 : Int) = v
          · have hcv : RegionConnected size regions v := by
              rw [← hide]
              exact h2 id2 hid2
            have hins := regionConnected_insert hcv hqg hqv hp
              (adj4_symm hqadj)
            rw [hide]
            exact hins
          · refine regionConnected_other (h2 id2 hid2) hide ?_
            intro h5
            rw [hz] at h5
            omega
        have g3 : rgNoOv regions (bupd regions p.1 p.2 v) := by
          intro r c hnz
          by_cases hrc : r = p.1 ∧ c = p.2
          · rw [hrc.1, hrc.2] at hnz
            exact absurd hz hnz
          · exact bupd_other regions p.1 p.2 v r c hrc
        obtain ⟨f1, f2, f3⟩ := ih (bupd regions p.1 p.2 v)
          (fun q2 hq2 => hcells q2 (List.mem_cons_of_mem _ hq2)) g1 g2
        exact ⟨f1, f2, fun r c hnz =>
          (f3 r c (by rw [g3 r c hnz]; exact hnz)).trans (g3 r c hnz)⟩
      · rw [if_neg hnb]
        exact ih regions (fun q2 hq2 => hcells q2 (List.mem_cons_of_mem _ hq2))
          h1 h2
    · rw [if_neg hz]
      exact ih regions (fun q2 hq2 => hcells q2 (List.mem_cons_of_mem _ hq2))
        h1 h2

theorem rgFillRemaining_sound (size : Nat) (regions : Nat → Nat → Int)
    (h1 : rgVals size regions) (h2 : rgConnAll size regions) :
    rgVals size (rgFillRemaining size regions) ∧
    rgConnAll size (rgFillRemaining size regions) ∧
    rgNoOv regions (rgFillRemaining size regions) := by
  unfold rgFillRemaining
  exact rgFill_fold_sound size (cellList size) regions
    (fun p hp => mem_cellList_bounds size p hp) h1 h2

theorem rg_generate_sound {size : Nat} {rng : Nat → Nat} {idx fuel : Nat}
    {out : (Nat → Nat → Int) × Nat}
    (h : rgGenerate size rng idx fuel = some out) :
    rgVals size out.1 ∧
    (∀ id : Nat, id < size →
      ∃ p, inGrid size p ∧ out.1 p.1 p.2 = (id : Int)) ∧
    rgConnAll size out.1 := by
  unfold rgGenerate at h
  rcases hseeds : rgSeedsLoop size rng fuel (fun _ _ => (-1 : Int)) idx [] []
      (List.range size) with _ | tri
  · rw [hseeds] at h
    exact Option.noConfusion h
  · rw [hseeds] at h
    obtain ⟨regions, idx1, seeds⟩ := tri
    dsimp only at h
    obtain ⟨s1, s2, s3, extra, he1, he2⟩ :=
      rgSeedsLoop_sound size rng fuel (List.range size) (fun _ _ => -1) idx
        [] [] (regions, idx1, seeds) hseeds
        (List.nodup_range size)
        (fun r c _ _ => Or.inl rfl)
        (by
          intro id2 hid2 p q2 hp hpid hq hqid
          exact absurd hpid (by dsimp only; omega))
        (fun p hz => absurd rfl hz)
        (fun id hid =>
          ⟨List.mem_range.1 hid, fun r c => by dsimp only; omega⟩)
        (fun pr hpr => absurd hpr (List.not_mem_nil pr))
    dsimp only at s1 s2 s3 he1
    have hextra : seeds = extra := by simpa using he1
    rw [← hextra] at he2
    have hlen : seeds.length = size := by
      have h6 := congrArg List.length he2
      rw [List.length_map, List.length_range] at h6
      exact h6
    have hfrOK : rgFrontOK size regions (seeds.map (fun sd => [sd.1])) := by
      constructor
      · rw [List.length_map, hlen]
      · intro rid hrid p hp
        have hridlen : rid < (seeds.map (fun sd => [sd.1])).length := by
          rw [List.length_map, hlen]
          exact hrid
        have hrids : rid < seeds.length := by
          rw [hlen]
          exact hrid
        rw [List.getD_eq_getElem _ _ hridlen, List.getElem_map] at hp
        have hpe := List.mem_singleton.1 hp
        have hmem := @List.getElem_mem _ seeds rid hrids
        have hprop := s3 _ hmem
        have h7 := List.getElem_of_eq he2 (by rw [List.length_map]; exact hrids)
        rw [List.getElem_map, List.getElem_range] at h7
        rw [hpe]
        refine ⟨hprop.1, ?_⟩
        have h8 := hprop.2
        rw [h7] at h8
        exact h8
    rcases hgrow : rgGrowLoop size rng regions (seeds.map (fun sd => [sd.1]))
        idx1 fuel with _ | out2
    · rw [hgrow] at h
      exact Option.noConfusion h
    · rw [hgrow] at h
      obtain ⟨g1, g2, g3⟩ :=
        rgGrowLoop_sound fuel regions (seeds.map (fun sd => [sd.1])) idx1 out2
          hgrow s1 s2 hfrOK
      obtain ⟨regions1, idx2⟩ := out2
      dsimp only at h g1 g2 g3
      obtain rfl := Option.some.inj h
      obtain ⟨f1, f2, f3⟩ := rgFillRemaining_sound size regions1 g1 g2
      refine ⟨f1, ?_, f2⟩
      intro id hid
      have hidmem : id ∈ seeds.map (fun pr => pr.2) := by
        rw [he2]
        exact List.mem_range.2 hid
      rw [List.mem_map] at hidmem
      obtain ⟨pr, hprm, hpr2⟩ := hidmem
      have hprop := s3 pr hprm
      refine ⟨pr.1, hprop.1, ?_⟩
      have h9 : regions pr.1.1 pr.1.2 = (id : Int) := by
        rw [hprop.2, hpr2]
      have h10 : regions1 pr.1.1 pr.1.2 = (id : Int) := by
        rw [g3 pr.1.1 pr.1.2 (by rw [h9]; omega)]
        exact h9
      dsimp only
      rw [f3 pr.1.1 pr.1.2 (by rw [h10]; omega)]
      exact h10

/-- C3 counterexample: the claim fails in both of its parts.  With the
all-zeros random stream on a 2-by-2 board the seed-placement rejection
loop never terminates (the embedding returns `none` for every fuel
bound), and under a crafted stream on a 4-by-4 board the generator
returns a region map whose cell (0,0) still holds -1, not an id in
[0, N). -/
theorem claim_C3_counterexample :
    (∀ fuel, rgGenerate 2 constZeroStream 0 fuel = none) ∧
    (rgGenerate 4 stallRng 0 10).map (fun pr => pr.1 0 0) = some (-1) := by
  constructor
  · have hpick : ∀ f i, rgPickFree 2 constZeroStream i [(0, 0)] f = none := by
      intro f
      induction f with
      | zero => intro i; rfl
      | succ f ih =>
        intro i
        exact ih (i + 2)
    intro fuel
    cases fuel with
    | zero => rfl
    | succ f =>
      have hp1 : rgPickFree 2 constZeroStream 0 [] (f + 1) =
          some ((0, 0), 2) := rfl
      have hs : rgSeedsLoop 2 constZeroStream (f + 1) (fun _ _ => (-1 : Int))
          0 [] [] (List.range 2) = none := by
        show rgSeedsLoop 2 constZeroStream (f + 1) (fun _ _ => (-1 : Int))
          0 [] [] [0, 1] = none
        simp only [rgSeedsLoop, hp1, List.nil_append, hpick]
      unfold rgGenerate
      rw [hs]
  · rfl

/-- C3 (amended): generation can fail to terminate (the seed loop has
no fuel in the source) and a returned map can keep unassigned cells
(see the counterexample), so the claim holds in this weakened form:
whenever `RegionGenerator.generate` does return a map, every in-grid
cell holds -1 or an id in [0, N), every id in [0, N) appears at least
once, and for every id the set of cells holding it is 4-connected. -/
theorem claim_C3_region_invariants (size : Nat) (rng : Nat → Nat)
    (idx fuel : Nat) (m : Nat → Nat → Int) (idx2 : Nat)
    (h : rgGenerate size rng idx fuel = some (m, idx2)) :
    (∀ r c, r < size → c < size →
      m r c = -1 ∨ (0 ≤ m r c ∧ m r c < (size : Int))) ∧
    (∀ id : Nat, id < size →
      ∃ p, inGrid size p ∧ m p.1 p.2 = (id : Int)) ∧
    (∀ id : Nat, id < size → RegionConnected size m (id : Int)) :=
  ⟨(rg_generate_sound h).1, (rg_generate_sound h).2.1,
    (rg_generate_sound h).2.2⟩

theorem claim_C3_witness :
    rgGenerate 1 constZeroStream 0 2 =
      some (bupd (fun _ _ => (-1 : Int)) 0 0 0, 3) ∧
    (∀ id : Nat, id < 1 →
      ∃ p, inGrid 1 p ∧
        bupd (fun _ _ => (-1 : Int)) 0 0 0 p.1 p.2 = (id : Int)) := by
  have h := claim_C3_region_invariants 1 constZeroStream 0 2
    (bupd (fun _ _ => (-1 : Int)) 0 0 0) 3 rfl
  exact ⟨rfl, h.2.1⟩

theorem genAttempt_good (d : DifficultyTier) (ctx : GenCtx)
    (hsz : ctx.size = d.size)
    (hsl : ctx.stepLimitForGen = stepLimitForSize ctx.size)
    (regions : Nat → Nat → Int) (ridx1 : Nat)
    (hcount :
      ((SGState.init ctx.size regions ctx.rng ridx1).generate).1.count = 1)
    (hsolved : ((Solver.init ctx.size regions
      ((SGState.init ctx.size regions ctx.rng
        ridx1).generate).2.firstSolution).solveLogically
        true ctx.stepLimitForGen).2.solved = true) :
    GoodPuzzle d ⟨ctx.size, regions,
      ((SGState.init ctx.size regions ctx.rng
        ridx1).generate).2.firstSolution⟩ := by
  have hcount1 :
      1 ≤ ((SGState.init ctx.size regions ctx.rng ridx1).generate).1.count :=
    by rw [hcount]
  have hsome := (sg_generate_props ctx.size regions ctx.rng ridx1).1 hcount1
  rw [Option.isSome_iff_exists] at hsome
  obtain ⟨g, hg⟩ := hsome
  refine ⟨hsz, g, hg, ?_, ctx.rng, ridx1, hcount, hg⟩
  rw [hg, hsl] at hsolved
  exact hsolved

theorem relaxedMins_next (t : DifficultyTargets) (ms mst a : Nat)
    (h : relaxedMins t ms mst) :
    relaxedMins t
      (if a = 900 ∧ t.minScore - 2 < ms then
        (t.minScore - 2, max 4 (mst - 2))
      else (ms, mst)).1
      (if a = 900 ∧ t.minScore - 2 < ms then
        (t.minScore - 2, max 4 (mst - 2))
      else (ms, mst)).2 := by
  by_cases hc : a = 900 ∧ t.minScore - 2 < ms
  · rw [if_pos hc]
    rcases h with ⟨h1, h2⟩ | ⟨h1, h2⟩
    · right
      exact ⟨rfl, by rw [h2]⟩
    · exfalso
      rw [h1] at hc
      exact absurd hc.2 (lt_irrefl _)
  · rw [if_neg hc]
    exact h

theorem fallback1_good (d : DifficultyTier) (ctx : GenCtx)
    (hsz : ctx.size = d.size)
    (hsl : ctx.stepLimitForGen = stepLimitForSize ctx.size)
    (regions : Nat → Nat → Int) (ridx1 : Nat)
    (hcount :
      ((SGState.init ctx.size regions ctx.rng ridx1).generate).1.count = 1)
    (consumed : List QueensPuzzle)
    (fallback : Option (QueensPuzzle × Nat × Nat))
    (hfb : ∀ fb, fallback = some fb → FBProp d ctx consumed fb)
    (hnone : fallback = none → ∀ q ∈ consumed,
      ¬((pLogic ctx.stepLimitForGen q).solved = true)) :
    (∀ fb2, attemptFallback1 ctx regions ridx1 fallback = some fb2 →
      FBProp d ctx (consumed ++ [attemptPuzzle ctx regions ridx1]) fb2) ∧
    (attemptFallback1 ctx regions ridx1 fallback = none →
      ∀ q ∈ consumed ++ [attemptPuzzle ctx regions ridx1],
        ¬((pLogic ctx.stepLimitForGen q).solved = true)) := by
  constructor
  · intro fb2 hfb2
    unfold attemptFallback1 at hfb2
    dsimp only at hfb2
    split at hfb2
    next hcond =>
      simp only [Bool.and_eq_true] at hcond
      obtain rfl := Option.some.inj hfb2
      have hgood : GoodPuzzle d (attemptPuzzle ctx regions ridx1) :=
        genAttempt_good d ctx hsz hsl regions ridx1 hcount hcond.1
      refine ⟨hgood, hcond.1, rfl, ?_, ?_⟩
      · exact List.mem_append.2 (Or.inr (List.mem_singleton.2 rfl))
      · intro q hq hqs
        rcases List.mem_append.1 hq with h | h
        · rcases hfo : fallback with _ | fb0
          · exact absurd hqs (hnone hfo q h)
          · obtain ⟨_, _, hb3, _, hb5⟩ := hfb fb0 hfo
            have hlt2 : fb0.2.1 < (pLogic ctx.stepLimitForGen
                (attemptPuzzle ctx regions ridx1)).difficultyScore := by
              have hb := hcond.2
              rw [hfo] at hb
              simpa [beatsFallback] using hb
            have hle := hb5 q h hqs
            dsimp only
            omega
        · have hq2 : q = attemptPuzzle ctx regions ridx1 :=
            List.mem_singleton.1 h
          rw [hq2]
    next hcond =>
      obtain ⟨hb1, hb2, hb3, hb4, hb5⟩ := hfb fb2 hfb2
      refine ⟨hb1, hb2, hb3, List.mem_append.2 (Or.inl hb4), ?_⟩
      intro q hq hqs
      rcases List.mem_append.1 hq with h | h
      · exact hb5 q h hqs
      · have hq2 : q = attemptPuzzle ctx regions ridx1 :=
          List.mem_singleton.1 h
        subst hq2
        have hnb : ¬(fb2.2.1 < (pLogic ctx.stepLimitForGen
            (attemptPuzzle ctx regions ridx1)).difficultyScore) := by
          intro hlt2
          apply hcond
          rw [Bool.and_eq_true]
          refine ⟨hqs, ?_⟩
          rw [hfb2]
          simp [beatsFallback, hlt2]
        omega
  · intro hne
    unfold attemptFallback1 at hne
    dsimp only at hne
    split at hne
    next hcond => exact Option.noConfusion hne
    next hcond =>
      intro q hq hqs
      rcases List.mem_append.1 hq with h | h
      · exact hnone hne q h hqs
      · have hq2 : q = attemptPuzzle ctx regions ridx1 :=
          List.mem_singleton.1 h
        subst hq2
        apply hcond
        rw [Bool.and_eq_true]
        refine ⟨hqs, ?_⟩
        rw [hne]
        simp [beatsFallback]

theorem genLoop_sound (d : DifficultyTier) (ctx : GenCtx)
    (hsz : ctx.size = d.size)
    (hsl : ctx.stepLimitForGen = stepLimitForSize ctx.size) :
    ∀ k attempts ms mst fallback ridx cidx
      (consumed : List QueensPuzzle),
      2000 - attempts ≤ k →
      relaxedMins ctx.targets ms mst →
      (∀ fb, fallback = some fb → FBProp d ctx consumed fb) →
      (fallback = none → ∀ q ∈ consumed,
        ¬((pLogic ctx.stepLimitForGen q).solved = true)) →
      ∀ res, genLoop ctx attempts ms mst fallback ridx cidx = some res →
        (∀ e, res = Except.error e → e = genFailMsg ∧
          ∀ q ∈ consumed ++ genCandidates ctx attempts ms mst ridx cidx,
            ¬((pLogic ctx.stepLimitForGen q).solved = true)) ∧
        (∀ p, res = Except.ok p → GoodPuzzle d p ∧
          (pLogic ctx.stepLimitForGen p).solved = true ∧
          p ∈ consumed ++ genCandidates ctx attempts ms mst ridx cidx ∧
          ((∃ ms2 mst2, relaxedMins ctx.targets ms2 mst2 ∧
            meetsMins ctx.stepLimitForGen ctx.targets ms2 mst2 p) ∨
           (∀ q ∈ consumed ++ genCandidates ctx attempts ms mst ridx cidx,
             (pLogic ctx.stepLimitForGen q).solved = true →
             (pLogic ctx.stepLimitForGen q).difficultyScore ≤
               (pLogic ctx.stepLimitForGen p).difficultyScore))) := by
  intro k
  induction k with
  | zero =>
    intro attempts ms mst fallback ridx cidx consumed hk hms hfb hnone res heq
    have hge : ¬(attempts < 2000) := by omega
    unfold genLoop at heq
    rw [dif_neg hge] at heq
    unfold genCandidates
    rw [dif_neg hge]
    rcases fallback with _ | fb
    · dsimp only at heq
      obtain rfl := Option.some.inj heq
      refine ⟨?_, ?_⟩
      · intro e he
        refine ⟨(Except.error.inj he).symm, ?_⟩
        rw [List.append_nil]
        exact hnone rfl
      · intro p hp
        exact Except.noConfusion hp
    · dsimp only at heq
      obtain rfl := Option.some.inj heq
      obtain ⟨hg1, hg2, hg3, hg4, hg5⟩ := hfb fb rfl
      refine ⟨?_, ?_⟩
      · intro e he
        exact Except.noConfusion he
      · intro p hp
        rw [← Except.ok.inj hp]
        refine ⟨hg1, hg2, ?_, Or.inr ?_⟩
        · rw [List.append_nil]
          exact hg4
        · rw [List.append_nil]
          intro q hq hqs
          rw [← hg3]
          exact hg5 q hq hqs
  | succ k ih =>
    intro attempts ms mst fallback ridx cidx consumed hk hms hfb hnone res heq
    unfold genLoop at heq
    by_cases hlt : attempts < 2000
    · rw [dif_pos hlt] at heq
      dsimp only at heq
      by_cases htime : (ctx.timeLimitMs : Int) <
          (ctx.clock cidx : Int) - (ctx.start : Int)
      · rw [if_pos htime] at heq
        unfold genCandidates
        rw [dif_pos hlt]
        dsimp only
        rw [if_pos htime]
        rcases fallback with _ | fb
        · dsimp only at heq
          obtain rfl := Option.some.inj heq
          refine ⟨?_, ?_⟩
          · intro e he
            refine ⟨(Except.error.inj he).symm, ?_⟩
            rw [List.append_nil]
            exact hnone rfl
          · intro p hp
            exact Except.noConfusion hp
        · dsimp only at heq
          obtain rfl := Option.some.inj heq
          obtain ⟨hg1, hg2, hg3, hg4, hg5⟩ := hfb fb rfl
          refine ⟨?_, ?_⟩
          · intro e he
            exact Except.noConfusion he
          · intro p hp
            rw [← Except.ok.inj hp]
            refine ⟨hg1, hg2, ?_, Or.inr ?_⟩
            · rw [List.append_nil]
              exact hg4
            · rw [List.append_nil]
              intro q hq hqs
              rw [← hg3]
              exact hg5 q hq hqs
      · rw [if_neg htime] at heq
        rcases hrg : rgGenerate ctx.size ctx.rng ridx ctx.rgFuel with _ | pr
        · rw [hrg] at heq
          dsimp only at heq
          exact Option.noConfusion heq
        · rw [hrg] at heq
          obtain ⟨regions, ridx1⟩ := pr
          dsimp only at heq
          by_cases hcount :
              ((SGState.init ctx.size regions ctx.rng
                ridx1).generate).1.count = 1
          · rw [if_pos hcount] at heq
            split at heq
            next hmeets =>
              obtain rfl := Option.some.inj heq
              unfold genCandidates
              rw [dif_pos hlt]
              dsimp only
              rw [if_neg htime, hrg]
              dsimp only
              rw [if_pos hcount, if_pos hmeets]
              simp only [Bool.and_eq_true, decide_eq_true_eq] at hmeets
              obtain ⟨⟨⟨hsolv, hsc⟩, hst⟩, hadv⟩ := hmeets
              refine ⟨?_, ?_⟩
              · intro e he
                exact Except.noConfusion he
              · intro p hp
                rw [← Except.ok.inj hp]
                refine ⟨genAttempt_good d ctx hsz hsl regions ridx1 hcount
                  hsolv, hsolv, ?_, Or.inl ⟨ms, mst, hms, ?_⟩⟩
                · exact List.mem_append.2
                    (Or.inr (List.mem_singleton.2 rfl))
                · refine ⟨hsolv, hsc, hst, ?_⟩
                  intro hreq
                  rw [Bool.or_eq_true] at hadv
                  rcases hadv with h | h
                  · rw [Bool.not_eq_true'] at h
                    rw [hreq] at h
                    exact Bool.noConfusion h
                  · exact h
            next hmeets =>
              obtain ⟨hfb1, hnone1⟩ := fallback1_good d ctx hsz hsl regions
                ridx1 hcount consumed fallback hfb hnone
              have HC := ih (attempts + 1) _ _ _ _ (cidx + 1)
                (consumed ++ [attemptPuzzle ctx regions ridx1]) (by omega)
                (relaxedMins_next ctx.targets ms mst (attempts + 1) hms)
                hfb1 hnone1 res heq
              unfold genCandidates
              rw [dif_pos hlt]
              dsimp only
              rw [if_neg htime, hrg]
              dsimp only
              rw [if_pos hcount, if_neg hmeets]
              refine ⟨?_, ?_⟩
              · intro e he
                obtain ⟨hmsg, hall⟩ := HC.1 e he
                refine ⟨hmsg, ?_⟩
                intro q hq
                apply hall q
                rcases List.mem_append.1 hq with h | h
                · exact List.mem_append.2
                    (Or.inl (List.mem_append.2 (Or.inl h)))
                · rcases List.mem_cons.1 h with hqp | h2
                  · exact List.mem_append.2 (Or.inl (List.mem_append.2
                      (Or.inr (List.mem_singleton.2 (hqp.trans rfl)))))
                  · exact List.mem_append.2 (Or.inr h2)
              · intro p hp
                obtain ⟨hgood, hsolv, hmem, hdisj⟩ := HC.2 p hp
                refine ⟨hgood, hsolv, ?_, ?_⟩
                · rcases List.mem_append.1 hmem with h | h
                  · rcases List.mem_append.1 h with h2 | h2
                    · exact List.mem_append.2 (Or.inl h2)
                    · have hp2 : p = attemptPuzzle ctx regions ridx1 :=
                        List.mem_singleton.1 h2
                      exact List.mem_append.2 (Or.inr (List.mem_cons.2
                        (Or.inl (hp2.trans rfl))))
                  · exact List.mem_append.2
                      (Or.inr (List.mem_cons_of_mem _ h))
                · rcases hdisj with hl | hr
                  · exact Or.inl hl
                  · refine Or.inr ?_
                    intro q hq hqs
                    apply hr q ?_ hqs
                    rcases List.mem_append.1 hq with h | h
                    · exact List.mem_append.2
                        (Or.inl (List.mem_append.2 (Or.inl h)))
                    · rcases List.mem_cons.1 h with hqp | h2
                      · exact List.mem_append.2 (Or.inl (List.mem_append.2
                          (Or.inr (List.mem_singleton.2 (hqp.trans rfl)))))
                      · exact List.mem_append.2 (Or.inr h2)
          · rw [if_neg hcount] at heq
            have HC := ih (attempts + 1) _ _ _ _ (cidx + 1) consumed
              (by omega)
              (relaxedMins_next ctx.targets ms mst (attempts + 1) hms)
              hfb hnone res heq
            unfold genCandidates
            rw [dif_pos hlt]
            dsimp only
            rw [if_neg htime, hrg]
            dsimp only
            rw [if_neg hcount]
            exact HC
    · rw [dif_neg hlt] at heq
      unfold genCandidates
      rw [dif_neg hlt]
      rcases fallback with _ | fb
      · dsimp only at heq
        obtain rfl := Option.some.inj heq
        refine ⟨?_, ?_⟩
        · intro e he
          refine ⟨(Except.error.inj he).symm, ?_⟩
          rw [List.append_nil]
          exact hnone rfl
        · intro p hp
          exact Except.noConfusion hp
      · dsimp only at heq
        obtain rfl := Option.some.inj heq
        obtain ⟨hg1, hg2, hg3, hg4, hg5⟩ := hfb fb rfl
        refine ⟨?_, ?_⟩
        · intro e he
          exact Except.noConfusion he
        · intro p hp
          rw [← Except.ok.inj hp]
          refine ⟨hg1, hg2, ?_, Or.inr ?_⟩
          · rw [List.append_nil]
            exact hg4
          · rw [List.append_nil]
            intro q hq hqs
            rw [← hg3]
            exact hg5 q hq hqs

/-- C7: the full generation contract.  Every puzzle
`PuzzleGenerator.generate` returns is good (requested size, a
recorded witness that a uniqueness-solver run on its region map found
as the unique first solution, and which the deduction solver — run
exactly as the generator runs it — fully solves and matches), it is
solvable and drawn from the unique-count candidates of the run, and
it either meets the (possibly relaxed at attempt 900) tier minimums
for score, step count and advanced-technique use, or is of maximal
difficulty score among all solvable candidates the run saw (the
fallback).  When generation fails it throws the dedicated error
message, and then no candidate of the run was logically solvable. -/
theorem claim_C7_generator_contract (d : DifficultyTier)
    (rng clock : Nat → Nat) (rgFuel : Nat) :
    (∀ e, puzzleGenerate d rng clock rgFuel = some (Except.error e) →
      e = genFailMsg ∧
      ∀ q ∈ genCandidates (genCtxFor d rng clock rgFuel) 0
          (getDifficultyTargets d).minScore
          (getDifficultyTargets d).minSteps 0 1,
        ¬((pLogic (stepLimitForSize d.size) q).solved = true)) ∧
    (∀ p, puzzleGenerate d rng clock rgFuel = some (Except.ok p) →
      GoodPuzzle d p ∧
      (pLogic (stepLimitForSize d.size) p).solved = true ∧
      p ∈ genCandidates (genCtxFor d rng clock rgFuel) 0
        (getDifficultyTargets d).minScore
        (getDifficultyTargets d).minSteps 0 1 ∧
      ((∃ ms mst, relaxedMins (getDifficultyTargets d) ms mst ∧
        meetsMins (stepLimitForSize d.size) (getDifficultyTargets d)
          ms mst p) ∨
       (∀ q ∈ genCandidates (genCtxFor d rng clock rgFuel) 0
           (getDifficultyTargets d).minScore
           (getDifficultyTargets d).minSteps 0 1,
         (pLogic (stepLimitForSize d.size) q).solved = true →
         (pLogic (stepLimitForSize d.size) q).difficultyScore ≤
           (pLogic (stepLimitForSize d.size) p).difficultyScore))) := by
  have h := genLoop_sound d (genCtxFor d rng clock rgFuel) rfl rfl 2000 0
    (getDifficultyTargets d).minScore (getDifficultyTargets d).minSteps
    none 0 1 [] (by omega) (Or.inl ⟨rfl, rfl⟩)
    (fun fb hfb => Option.noConfusion hfb)
    (fun _ q hq => absurd hq (List.not_mem_nil q))
  constructor
  · intro e heq
    have h2 := (h (Except.error e) heq).1 e rfl
    exact ⟨h2.1, h2.2⟩
  · intro p heq
    exact (h (Except.ok p) heq).2 p rfl

theorem claim_C7_witness :
    puzzleGenerate ⟨easyName, 1⟩ constZeroStream lateClock 1 =
      some (Except.error genFailMsg) ∧
    genFailMsg = genFailMsg := by
  have heval : puzzleGenerate ⟨easyName, 1⟩ constZeroStream lateClock 1 =
      some (Except.error genFailMsg) := by
    unfold puzzleGenerate
    unfold genLoop
    rw [dif_pos (by omega)]
    dsimp only
    rw [if_pos (by decide)]
  exact ⟨heval, ((claim_C7_generator_contract ⟨easyName, 1⟩ constZeroStream
    lateClock 1).1 genFailMsg heval).1⟩

end QueensGame
